import Mathlib

/-!
# Verification of the `logteehtml` append-only HTML logger

A shallow embedding of `src/logteehtml/logteehtml.py`.  The on-disk file and
all text chunks are modelled as `List Char` (the Python code works on the
UTF-8 encoding of such text; since UTF-8 is self-synchronizing, substring
search and splicing on the byte level agree with the character level for the
ASCII patterns the code uses).  Fallible operations (those that may raise
`RuntimeError('Footer marker not found')`) return `Option`.
-/

set_option maxRecDepth 8000

abbrev Chars := List Char

/-! ## Generic string-search utilities (models of Python `find`/`rfind`/`in`) -/

/-- `matchesAt p s i` — the pattern `p` occurs in `s` at position `i`. -/
def matchesAt (p s : Chars) (i : Nat) : Bool := p.isPrefixOf (s.drop i)

/-- Number of positions of `s` (its end included) where `p` occurs. -/
def occCount (p : Chars) : Chars → Nat
  | [] => if p.isPrefixOf ([] : Chars) then 1 else 0
  | c :: rest => (if p.isPrefixOf (c :: rest) then 1 else 0) + occCount p rest

/-- Number of occurrences of `p` in `a ++ b` that start inside `a`. -/
def countStarts (p b : Chars) : Chars → Nat
  | [] => 0
  | c :: rest => (if p.isPrefixOf ((c :: rest) ++ b) then 1 else 0) + countStarts p b rest

/-- Auxiliary downward scan for the rightmost occurrence. -/
def rfindAux (p s : Chars) : Nat → Option Nat
  | 0 => if matchesAt p s 0 then some 0 else none
  | Nat.succ i => if matchesAt p s (i + 1) then some (i + 1) else rfindAux p s i

/-- Model of Python `bytes.rfind`: the largest position where `p` occurs in `s`
(`none` for Python's `-1`). -/
def rfindIdx (p s : Chars) : Option Nat :=
  if p.length ≤ s.length then rfindAux p s (s.length - p.length) else none

/-- Model of Python `bytes.find` / `re.search` of a literal: leftmost occurrence. -/
def ffindIdx (p : Chars) : Chars → Option Nat
  | [] => if p.isPrefixOf ([] : Chars) then some 0 else none
  | c :: rest => if p.isPrefixOf (c :: rest) then some 0 else (ffindIdx p rest).map (· + 1)

/-- Model of Python `p in s` (substring containment). -/
def containsSub (p s : Chars) : Bool := (ffindIdx p s).isSome

/-! ### Lemmas about the search utilities -/

theorem isPrefixOf_eq_true_iff {p s : Chars} : p.isPrefixOf s = true ↔ p <+: s :=
  List.isPrefixOf_iff_prefix

theorem matchesAt_le_length {p s : Chars} {i : Nat} (h : matchesAt p s i = true) :
    p.length ≤ s.length - i := by
  have hp : p <+: s.drop i := isPrefixOf_eq_true_iff.mp h
  have hl : p.length ≤ (s.drop i).length := hp.length_le
  simpa only [List.length_drop] using hl

theorem matchesAt_nonempty_lt {p s : Chars} {i : Nat} (hne : p ≠ [])
    (h : matchesAt p s i = true) : i < s.length := by
  have h1 := matchesAt_le_length h
  have h2 : 0 < p.length := List.length_pos.mpr hne
  omega

theorem matchesAt_add_le_length {p s : Chars} {i : Nat} (hne : p ≠ [])
    (h : matchesAt p s i = true) : i + p.length ≤ s.length := by
  have h1 := matchesAt_le_length h
  have h2 := matchesAt_nonempty_lt hne h
  omega

theorem matchesAt_cons_succ {p : Chars} {c : Char} {rest : Chars} {i : Nat} :
    matchesAt p (c :: rest) (i + 1) = matchesAt p rest i := by
  simp [matchesAt]

theorem occCount_pos {p s : Chars} {i : Nat} (h : matchesAt p s i = true) :
    1 ≤ occCount p s := by
  induction s generalizing i with
  | nil =>
    simp only [matchesAt, List.drop_nil] at h
    simp [occCount, h]
  | cons c rest ih =>
    cases i with
    | zero =>
      simp only [matchesAt, List.drop] at h
      simp [occCount, h]
    | succ j =>
      rw [matchesAt_cons_succ] at h
      have := ih h
      simp only [occCount]
      omega

theorem occCount_two {p s : Chars} {i j : Nat} (hne : p ≠ [])
    (hij : i < j) (hi : matchesAt p s i = true) (hj : matchesAt p s j = true) :
    2 ≤ occCount p s := by
  induction s generalizing i j with
  | nil =>
    exact absurd (matchesAt_nonempty_lt hne hj) (by simp)
  | cons c rest ih =>
    cases i with
    | zero =>
      simp only [matchesAt, List.drop] at hi
      cases j with
      | zero => omega
      | succ j' =>
        rw [matchesAt_cons_succ] at hj
        have := occCount_pos hj
        simp only [occCount, hi, if_pos]
        omega
    | succ i' =>
      cases j with
      | zero => omega
      | succ j' =>
        rw [matchesAt_cons_succ] at hi hj
        have := ih (by omega) hi hj
        simp only [occCount]
        omega

theorem matchesAt_unique {p s : Chars} {i j : Nat} (hne : p ≠ [])
    (hocc : occCount p s = 1) (hi : matchesAt p s i = true)
    (hj : matchesAt p s j = true) : i = j := by
  rcases Nat.lt_trichotomy i j with h | h | h
  · have := occCount_two hne h hi hj; omega
  · exact h
  · have := occCount_two hne h hj hi; omega

theorem occCount_zero_iff {p s : Chars} :
    occCount p s = 0 ↔ ∀ i, matchesAt p s i = false := by
  constructor
  · intro h i
    by_contra hcon
    have : matchesAt p s i = true := by
      cases hm : matchesAt p s i
      · exact absurd hm hcon
      · rfl
    have := occCount_pos this
    omega
  · intro h
    induction s with
    | nil =>
      have h0 := h 0
      simp only [matchesAt, List.drop_nil] at h0
      simp [occCount, h0]
    | cons c rest ih =>
      have h0 := h 0
      simp only [matchesAt, List.drop] at h0
      have hr : occCount p rest = 0 := by
        refine ih fun i => ?_
        have h1 := h (i + 1)
        rwa [matchesAt_cons_succ] at h1
      simp [occCount, h0, hr]

theorem occCount_append (p a b : Chars) :
    occCount p (a ++ b) = countStarts p b a + occCount p b := by
  induction a with
  | nil => simp [countStarts]
  | cons c rest ih =>
    simp only [List.cons_append, occCount, countStarts, List.append_eq, ih]
    omega

theorem rfindAux_some_matches {p s : Chars} {n i : Nat}
    (h : rfindAux p s n = some i) : matchesAt p s i = true := by
  induction n with
  | zero =>
    simp only [rfindAux] at h
    split at h
    · simp_all
    · simp_all
  | succ m ih =>
    simp only [rfindAux] at h
    split at h
    · rename_i hm
      cases h; exact hm
    · exact ih h

theorem rfindAux_exists {p s : Chars} {n i : Nat}
    (hi : matchesAt p s i = true) (hle : i ≤ n) :
    ∃ j, i ≤ j ∧ rfindAux p s n = some j := by
  induction n with
  | zero =>
    have : i = 0 := by omega
    subst this
    exact ⟨0, Nat.le_refl 0, by simp [rfindAux, hi]⟩
  | succ m ih =>
    by_cases hm : matchesAt p s (m + 1) = true
    · exact ⟨m + 1, by omega, by simp [rfindAux, hm]⟩
    · rcases Nat.lt_or_ge i (m + 1) with hlt | hge
      · rcases ih (by omega) with ⟨j, hj1, hj2⟩
        refine ⟨j, hj1, ?_⟩
        simp only [rfindAux]
        rw [if_neg (by simp [hm]), hj2]
      · have : i = m + 1 := by omega
        subst this
        exact absurd hi (by simp [hm])

theorem rfindIdx_eq_of_unique {p s : Chars} {i : Nat} (hne : p ≠ [])
    (hocc : occCount p s = 1) (hi : matchesAt p s i = true) :
    rfindIdx p s = some i := by
  have hlen := matchesAt_add_le_length hne hi
  have hp : 0 < p.length := List.length_pos.mpr hne
  have hple : p.length ≤ s.length := by omega
  have hile : i ≤ s.length - p.length := by omega
  rcases rfindAux_exists hi hile with ⟨j, _, hj2⟩
  have hjm := rfindAux_some_matches hj2
  have : i = j := matchesAt_unique hne hocc hi hjm
  subst this
  simp [rfindIdx, hple, hj2]

theorem rfindIdx_none_of_no_match {p s : Chars}
    (h : ∀ i, matchesAt p s i = false) : rfindIdx p s = none := by
  by_cases hple : p.length ≤ s.length
  · simp only [rfindIdx, if_pos hple]
    generalize s.length - p.length = n
    induction n with
    | zero => simp [rfindAux, h 0]
    | succ m ih => simp [rfindAux, h (m + 1), ih]
  · simp [rfindIdx, hple]

theorem rfindIdx_some_matches {p s : Chars} {i : Nat}
    (h : rfindIdx p s = some i) : matchesAt p s i = true := by
  simp only [rfindIdx] at h
  split at h
  · exact rfindAux_some_matches h
  · cases h

theorem ffindIdx_some_matches {p s : Chars} {i : Nat}
    (h : ffindIdx p s = some i) : matchesAt p s i = true := by
  induction s generalizing i with
  | nil =>
    simp only [ffindIdx] at h
    split at h
    · rename_i hp
      cases h
      simpa [matchesAt] using hp
    · cases h
  | cons c rest ih =>
    simp only [ffindIdx] at h
    split at h
    · rename_i hp
      cases h
      simpa [matchesAt] using hp
    · cases hrec : ffindIdx p rest with
      | none => rw [hrec] at h; cases h
      | some j =>
        rw [hrec] at h
        simp only [Option.map_some'] at h
        cases h
        rw [matchesAt_cons_succ]
        exact ih hrec

theorem containsSub_iff_exists {p s : Chars} :
    containsSub p s = true ↔ ∃ i, matchesAt p s i = true := by
  constructor
  · intro h
    simp only [containsSub, Option.isSome_iff_exists] at h
    rcases h with ⟨i, hi⟩
    exact ⟨i, ffindIdx_some_matches hi⟩
  · intro ⟨i, hi⟩
    simp only [containsSub, Option.isSome_iff_exists]
    induction s generalizing i with
    | nil =>
      simp only [matchesAt, List.drop_nil] at hi
      exact ⟨0, by simp [ffindIdx, hi]⟩
    | cons c rest ih =>
      cases i with
      | zero =>
        simp only [matchesAt, List.drop] at hi
        exact ⟨0, by simp [ffindIdx, hi]⟩
      | succ j =>
        rw [matchesAt_cons_succ] at hi
        rcases ih j hi with ⟨k, hk⟩
        by_cases hp : p.isPrefixOf (c :: rest) = true
        · exact ⟨0, by simp [ffindIdx, hp]⟩
        · exact ⟨k + 1, by simp [ffindIdx, hp, hk]⟩

/-! ## The tag-opener discipline `ltFree`

Every piece of markup the logger generates satisfies: each `'<'` is
immediately followed by `'/'`, a letter, or `'!'` plus a letter (doctype).
The footer marker `"<!-- LOGTEEHTML_FOOTER -->"` begins with `"<!-"`, which
this discipline excludes, so `ltFree` content can never contain or help
assemble a second copy of the marker. -/

def ltOpenerOK : Chars → Bool
  | [] => false
  | d :: rest2 =>
    if d = '/' || d.isAlpha then true
    else if d = '!' then
      match rest2 with
      | [] => false
      | e :: _ => e.isAlpha
    else false

def ltFree : Chars → Bool
  | [] => true
  | c :: rest => (if c = '<' then ltOpenerOK rest else true) && ltFree rest

theorem ltFree_cons_tail {c : Char} {rest : Chars} (h : ltFree (c :: rest) = true) :
    ltFree rest = true := by
  simp only [ltFree, Bool.and_eq_true] at h
  exact h.2

theorem ltFree_of_no_lt {s : Chars} (h : '<' ∉ s) : ltFree s = true := by
  induction s with
  | nil => rfl
  | cons c rest ih =>
    simp only [List.mem_cons, not_or] at h
    simp only [ltFree, Bool.and_eq_true]
    have hc : ¬ c = '<' := fun hc => h.1 hc.symm
    exact ⟨by rw [if_neg hc], ih h.2⟩

theorem ltOpenerOK_append {r b : Chars} (h : ltOpenerOK r = true) :
    ltOpenerOK (r ++ b) = true := by
  match r with
  | [] => simp [ltOpenerOK] at h
  | d :: rest2 =>
    simp only [List.cons_append, ltOpenerOK] at h ⊢
    split at h
    · rw [if_pos (by assumption)]
    · split at h
      · rw [if_neg (by assumption), if_pos (by assumption)]
        match rest2 with
        | [] => simp at h
        | e :: _ => simpa using h
      · simp at h

theorem ltFree_append {a b : Chars} (ha : ltFree a = true) (hb : ltFree b = true) :
    ltFree (a ++ b) = true := by
  induction a with
  | nil => simpa using hb
  | cons c rest ih =>
    simp only [ltFree, Bool.and_eq_true] at ha
    have hr := ih ha.2
    simp only [List.cons_append, ltFree, Bool.and_eq_true]
    refine ⟨?_, hr⟩
    by_cases hc : c = '<'
    · rw [if_pos hc]
      rw [if_pos hc] at ha
      exact ltOpenerOK_append ha.1
    · rw [if_neg hc]

theorem ltFree_drop {s : Chars} (h : ltFree s = true) (k : Nat) :
    ltFree (s.drop k) = true := by
  induction k generalizing s with
  | zero => simpa using h
  | succ m ih =>
    match s with
    | [] => rfl
    | c :: rest => exact ih (ltFree_cons_tail h)

/-- Characters that may legally follow a `'<'` under `ltFree`. -/
def tagSuccChar (c : Char) : Bool := c = '/' || c.isAlpha || c = '!'

theorem ltFree_lt_head {rest : Chars} (h : ltFree ('<' :: rest) = true) :
    ltOpenerOK rest = true := by
  simp only [ltFree, Bool.and_eq_true] at h
  simpa using h.1

theorem ltOpenerOK_head {d : Char} {r2 : Chars} (h : ltOpenerOK (d :: r2) = true) :
    tagSuccChar d = true := by
  simp only [ltOpenerOK] at h
  simp only [tagSuccChar, Bool.or_eq_true]
  split at h
  · rename_i hd
    rcases Bool.or_eq_true _ _ |>.mp hd with h1 | h2
    · exact Or.inl (Or.inl h1)
    · exact Or.inl (Or.inr h2)
  · split at h
    · rename_i hd
      exact Or.inr (by simp [hd])
    · simp at h

theorem ltOpenerOK_bang {r2 : Chars} (h : ltOpenerOK ('!' :: r2) = true) :
    ∃ e r3, r2 = e :: r3 ∧ e.isAlpha = true := by
  simp only [ltOpenerOK] at h
  rw [if_neg (by decide)] at h
  simp only [reduceIte] at h
  match r2, h with
  | e :: r3, h => exact ⟨e, r3, rfl, h⟩

theorem ltFree_take_of_bad_succ {s : Chars} (h : ltFree s = true) :
    ∀ {k : Nat} {c : Char}, s.get? k = some c → tagSuccChar c = false →
    ltFree (s.take k) = true := by
  induction s with
  | nil => intro k c hk _; simp at hk
  | cons a rest ih =>
    intro k c hk hc
    cases k with
    | zero => rfl
    | succ m =>
      simp only [List.get?] at hk
      have htail : ltFree (rest.take m) = true := ih (ltFree_cons_tail h) hk hc
      simp only [List.take_succ_cons, ltFree, Bool.and_eq_true]
      refine ⟨?_, htail⟩
      by_cases ha : a = '<'
      · subst ha
        rw [if_pos rfl]
        have hop := ltFree_lt_head h
        match rest, hk, htail, hop with
        | d :: r2, hk, htail, hop =>
          cases m with
          | zero =>
            simp only [List.get?] at hk
            cases hk
            exact absurd (ltOpenerOK_head hop) (by simp [hc])
          | succ m' =>
            simp only [List.get?] at hk
            simp only [List.take_succ_cons]
            by_cases hd : (d = '/' || d.isAlpha) = true
            · simp [ltOpenerOK, hd]
            · have hd_bang : d = '!' := by
                have h2 := ltOpenerOK_head hop
                simp only [tagSuccChar, Bool.or_eq_true] at h2
                rcases h2 with (h1 | h2) | h3
                · exact absurd (by simp [h1] : (d = '/' || d.isAlpha) = true) hd
                · exact absurd (by simp [h2] : (d = '/' || d.isAlpha) = true) hd
                · simpa using h3
              subst hd_bang
              rcases ltOpenerOK_bang hop with ⟨e, r3, hr2, he⟩
              subst hr2
              cases m' with
              | zero =>
                simp only [List.get?] at hk
                cases hk
                simp [tagSuccChar, he] at hc
              | succ m'' =>
                simp only [List.take_succ_cons]
                simp [ltOpenerOK, he]
      · rw [if_neg ha]

theorem ltFree_take_of_lt_at {s : Chars} {k : Nat} (h : ltFree s = true)
    (hk : s.get? k = some '<') : ltFree (s.take k) = true :=
  ltFree_take_of_bad_succ h hk (by decide)

theorem ltFree_take_of_nl_at {s : Chars} {k : Nat} (h : ltFree s = true)
    (hk : s.get? k = some '\n') : ltFree (s.take (k + 1)) = true := by
  have h1 : ltFree (s.take k) = true := ltFree_take_of_bad_succ h hk (by decide)
  have hk2 : s[k]? = some '\n' := by rw [← List.get?_eq_getElem?]; exact hk
  rw [List.take_succ, hk2]
  exact ltFree_append h1 (by decide)

/-! ## Fixed byte sequences of the logger (logteehtml.py lines 15–16) -/

def FOOTER_MARKER : Chars := "<!-- LOGTEEHTML_FOOTER -->".data

def CHUNK_CLOSER : Chars := "</pre></div>\n".data

theorem FOOTER_MARKER_cons :
    FOOTER_MARKER = '<' :: '!' :: '-' :: ("- LOGTEEHTML_FOOTER -->".data) := by decide

/-- `ltFree` content can never contain an occurrence of the footer marker,
not even one that continues into arbitrary following bytes. -/
theorem countStarts_marker_zero {a : Chars} (b : Chars) (ha : ltFree a = true) :
    countStarts FOOTER_MARKER b a = 0 := by
  induction a with
  | nil => rfl
  | cons c rest ih =>
    have hr := ih (ltFree_cons_tail ha)
    have hnp : ¬ (FOOTER_MARKER.isPrefixOf ((c :: rest) ++ b) = true) := by
      intro hpre
      rw [FOOTER_MARKER_cons] at hpre
      simp only [List.cons_append, List.isPrefixOf, Bool.and_eq_true, beq_iff_eq] at hpre
      obtain ⟨hc, hpre⟩ := hpre
      subst hc
      have hop := ltFree_lt_head ha
      match rest, hpre, hop with
      | [], hpre, hop => simp [ltOpenerOK] at hop
      | d :: r2, hpre, hop =>
        simp only [List.cons_append, List.isPrefixOf, Bool.and_eq_true, beq_iff_eq] at hpre
        obtain ⟨hd, hpre⟩ := hpre
        subst hd
        rcases ltOpenerOK_bang hop with ⟨e, r3, hr2, he⟩
        subst hr2
        simp only [List.cons_append, List.isPrefixOf, Bool.and_eq_true, beq_iff_eq] at hpre
        obtain ⟨hee, _⟩ := hpre
        subst hee
        simp at he
    simp only [countStarts, hr, Nat.add_zero, if_neg hnp]

/-- The marker occurs exactly once in `head ++ FOOTER_MARKER ++ t` when the
head respects the tag-opener discipline and the tail does not hide a copy. -/
theorem occCount_marker_once {head t : Chars} (hh : ltFree head = true)
    (ht : occCount FOOTER_MARKER (FOOTER_MARKER ++ t) = 1) :
    occCount FOOTER_MARKER (head ++ FOOTER_MARKER ++ t) = 1 := by
  rw [List.append_assoc, occCount_append, countStarts_marker_zero _ hh, ht]

theorem matchesAt_self_append (p head t : Chars) :
    matchesAt p (head ++ p ++ t) head.length = true := by
  rw [List.append_assoc]
  simp only [matchesAt, List.drop_left]
  exact isPrefixOf_eq_true_iff.mpr (List.prefix_append p t)

/-! ## Leaf text helpers of logteehtml.py -/

/-- Model of Python `str.replace` with a single-character pattern. -/
def replaceChar (x : Char) (rep : Chars) : Chars → Chars
  | [] => []
  | c :: rest => (if c = x then rep else [c]) ++ replaceChar x rep rest

/-- `_escape_html` (line 46): three sequential single-character replaces. -/
def escape_html (s : Chars) : Chars :=
  replaceChar '>' ("&gt;".data)
    (replaceChar '<' ("&lt;".data)
      (replaceChar '&' ("&amp;".data) s))

theorem mem_replaceChar {x : Char} {rep s : Chars} {c : Char}
    (h : c ∈ replaceChar x rep s) : c ∈ rep ∨ (c ∈ s ∧ c ≠ x) := by
  induction s with
  | nil => simp [replaceChar] at h
  | cons a rest ih =>
    simp only [replaceChar, List.mem_append] at h
    rcases h with h | h
    · split at h
      · exact Or.inl h
      · rename_i hax
        simp only [List.mem_singleton] at h
        subst h
        exact Or.inr ⟨List.mem_cons_self _ _, hax⟩
    · rcases ih h with h1 | ⟨h2, h3⟩
      · exact Or.inl h1
      · exact Or.inr ⟨List.mem_cons_of_mem _ h2, h3⟩

theorem escape_html_no_lt {s : Chars} : '<' ∉ escape_html s := by
  intro h
  rcases mem_replaceChar h with h1 | ⟨h2, _⟩
  · simp [String.data] at h1
  · rcases mem_replaceChar h2 with h3 | ⟨_, h4⟩
    · simp [String.data] at h3
    · exact h4 rfl

theorem escape_html_no_gt {s : Chars} : '>' ∉ escape_html s := by
  intro h
  rcases mem_replaceChar h with h1 | ⟨_, h2⟩
  · simp [String.data] at h1
  · exact h2 rfl

theorem ltFree_of_no_lt_mem {s : Chars} (h : '<' ∉ s) : ltFree s = true :=
  ltFree_of_no_lt h

theorem ltFree_escape_html (s : Chars) : ltFree (escape_html s) = true :=
  ltFree_of_no_lt escape_html_no_lt

/-! ### ANSI escape-sequence scanning -/

def escChar : Char := Char.ofNat 27

def isParamChar (c : Char) : Bool := c.isDigit || c = ';'

/-- Try to match the regex `\x1b\[[0-9;]*[A-Za-z]` at the head of the input.
Returns the parameter characters, the final letter, and the remainder. -/
def matchEscFull : Chars → Option (Chars × Char × Chars)
  | c :: d :: rest =>
    if c = escChar ∧ d = '[' then
      match rest.dropWhile isParamChar with
      | e :: remain =>
        if e.isAlpha then some (rest.takeWhile isParamChar, e, remain) else none
      | [] => none
    else none
  | _ => none

theorem length_dropWhile_le (p : Char → Bool) (l : Chars) :
    (l.dropWhile p).length ≤ l.length := by
  induction l with
  | nil => simp
  | cons c rest ih =>
    rw [List.dropWhile_cons]
    split
    · simp only [List.length_cons]; omega
    · simp

theorem matchEscFull_remain_lt {s : Chars} {p : Chars} {e : Char} {r : Chars}
    (h : matchEscFull s = some (p, e, r)) : r.length < s.length := by
  match s with
  | [] => simp [matchEscFull] at h
  | [c] => simp [matchEscFull] at h
  | c :: d :: rest =>
    simp only [matchEscFull] at h
    by_cases hcd : c = escChar ∧ d = '['
    · rw [if_pos hcd] at h
      rcases hdw : rest.dropWhile isParamChar with _ | ⟨e', remain⟩
      · rw [hdw] at h; cases h
      · rw [hdw] at h
        dsimp only at h
        by_cases he : e'.isAlpha = true
        · rw [if_pos he] at h
          simp only [Option.some.injEq, Prod.mk.injEq] at h
          obtain ⟨-, -, hr⟩ := h
          subst hr
          have h1 : (rest.dropWhile isParamChar).length ≤ rest.length :=
            length_dropWhile_le _ _
          rw [hdw] at h1
          simp only [List.length_cons] at h1 ⊢
          omega
        · rw [if_neg he] at h; cases h
    · rw [if_neg hcd] at h; cases h

/-- `_strip_ansi` (line 31): remove every `ESC [ params letter` sequence.
The `fuel` argument (always instantiated with the input length, which bounds
the number of scanning steps) makes the recursion structural. -/
def stripAnsiF : Nat → Chars → Chars
  | 0, _ => []
  | _ + 1, [] => []
  | fuel + 1, c :: rest =>
    match matchEscFull (c :: rest) with
    | some (_, _, remain) => stripAnsiF fuel remain
    | none => c :: stripAnsiF fuel rest

def strip_ansi (s : Chars) : Chars := stripAnsiF s.length s

/-- The substitution on line 525: remove every escape sequence whose final
letter is not `m` (regex `\x1b\[[0-9;]*[A-Za-z](?<!m)`). -/
def stripEscNonMF : Nat → Chars → Chars
  | 0, _ => []
  | _ + 1, [] => []
  | fuel + 1, c :: rest =>
    match matchEscFull (c :: rest) with
    | some (_, e, remain) =>
      if e = 'm' then c :: stripEscNonMF fuel rest else stripEscNonMF fuel remain
    | none => c :: stripEscNonMF fuel rest

def strip_esc_non_m (s : Chars) : Chars := stripEscNonMF s.length s

/-- Final letters of all escape sequences, in order: models
`re.findall(r'\x1b\[[0-9;]*[A-Za-z]', text)` on lines 499–504. -/
def escSeqFinalsF : Nat → Chars → List Char
  | 0, _ => []
  | _ + 1, [] => []
  | fuel + 1, c :: rest =>
    match matchEscFull (c :: rest) with
    | some (_, e, remain) => e :: escSeqFinalsF fuel remain
    | none => escSeqFinalsF fuel rest

def escSeqFinals (s : Chars) : List Char := escSeqFinalsF s.length s

/-! ## The SGR style state machine (`_ansi_to_html_stateful`, lines 216–302) -/

/-- `_ANSI_COLOR_MAP` (line 35): the fixed 16-entry palette, for foreground
codes 30–37/90–97 and background codes 40–47/100–107. -/
def ANSI_COLOR_MAP (code : Nat) : Option String :=
  if code = 30 then some "#000000" else if code = 31 then some "#aa0000"
  else if code = 32 then some "#00aa00" else if code = 33 then some "#aa5500"
  else if code = 34 then some "#0000aa" else if code = 35 then some "#aa00aa"
  else if code = 36 then some "#00aaaa" else if code = 37 then some "#aaaaaa"
  else if code = 90 then some "#555555" else if code = 91 then some "#ff5555"
  else if code = 92 then some "#55ff55" else if code = 93 then some "#ffff55"
  else if code = 94 then some "#5555ff" else if code = 95 then some "#ff55ff"
  else if code = 96 then some "#55ffff" else if code = 97 then some "#ffffff"
  else if code = 40 then some "#000000" else if code = 41 then some "#aa0000"
  else if code = 42 then some "#00aa00" else if code = 43 then some "#aa5500"
  else if code = 44 then some "#0000aa" else if code = 45 then some "#aa00aa"
  else if code = 46 then some "#00aaaa" else if code = 47 then some "#aaaaaa"
  else if code = 100 then some "#555555" else if code = 101 then some "#ff5555"
  else if code = 102 then some "#55ff55" else if code = 103 then some "#ffff55"
  else if code = 104 then some "#5555ff" else if code = 105 then some "#ff55ff"
  else if code = 106 then some "#55ffff" else if code = 107 then some "#ffffff"
  else none

/-- `self._ansi_state` (line 116). -/
structure AnsiState where
  bold : Bool
  dim : Bool
  underline : Bool
  fg_color : Option String
  bg_color : Option String
deriving DecidableEq, Repr

/-- The reset state (lines 116–122 / 254–260). -/
def ansiReset : AnsiState :=
  { bold := false, dim := false, underline := false, fg_color := none, bg_color := none }

/-- The "any attribute active" test (lines 222 and 237 and 306). -/
def ansiActive (st : AnsiState) : Bool :=
  st.fg_color.isSome || st.bg_color.isSome || st.bold || st.dim || st.underline

/-- The style property list, in the fixed order of lines 223–233 / 281–291:
font-weight, opacity, text-decoration, color, background-color. -/
def ansiStyles (st : AnsiState) : List String :=
  (if st.bold then ["font-weight:700"] else []) ++
  (if st.dim then ["opacity:0.7"] else []) ++
  (if st.underline then ["text-decoration:underline"] else []) ++
  (match st.fg_color with | some c => ["color:" ++ c] | none => []) ++
  (match st.bg_color with | some c => ["background-color:" ++ c] | none => [])

/-- `f'<span style="{";".join(styles)}">'` (lines 235 / 294). -/
def ansiSpanTag (st : AnsiState) : Chars :=
  ("<span style=\"" ++ String.intercalate ";" (ansiStyles st) ++ "\">").data

/-- Loop state of `_ansi_to_html_stateful`: the persistent style state, the
`span_open` flag, and the `out` list of emitted fragments. -/
structure AnsiAcc where
  st : AnsiState
  spanOpen : Bool
  out : List Chars
deriving Repr

/-- One SGR code applied to the loop state (the `for code in codes` body,
lines 248–274). -/
def sgrStep (a : AnsiAcc) (code : Nat) : AnsiAcc :=
  if code = 0 then
    { st := ansiReset, spanOpen := false,
      out := a.out ++ (if a.spanOpen then ["</span>".data] else []) }
  else if code = 1 then { a with st := { a.st with bold := true } }
  else if code = 2 then { a with st := { a.st with dim := true } }
  else if code = 4 then { a with st := { a.st with underline := true } }
  else if 30 ≤ code ∧ code ≤ 37 then { a with st := { a.st with fg_color := ANSI_COLOR_MAP code } }
  else if 90 ≤ code ∧ code ≤ 97 then { a with st := { a.st with fg_color := ANSI_COLOR_MAP code } }
  else if 40 ≤ code ∧ code ≤ 47 then { a with st := { a.st with bg_color := ANSI_COLOR_MAP code } }
  else if 100 ≤ code ∧ code ≤ 107 then { a with st := { a.st with bg_color := ANSI_COLOR_MAP code } }
  else a

/-- After all codes of one escape: close the open span and reopen with the
current styles if any (lines 276–297). -/
def sgrFinish (a : AnsiAcc) : AnsiAcc :=
  let out1 := a.out ++ (if a.spanOpen then ["</span>".data] else [])
  if ansiStyles a.st ≠ [] then
    { st := a.st, spanOpen := true, out := out1 ++ [ansiSpanTag a.st] }
  else
    { st := a.st, spanOpen := false, out := out1 }

/-- Model of Python `str.split(sep)` for a one-character separator. -/
def pySplitOn (sep : Char) : Chars → List Chars
  | [] => [[]]
  | c :: rest =>
    if c = sep then [] :: pySplitOn sep rest
    else
      match pySplitOn sep rest with
      | [] => [[c]]
      | piece :: more => (c :: piece) :: more

/-- Model of Python `int` on a nonempty digit string. -/
def natOfDigits (s : Chars) : Nat := s.foldl (fun a c => 10 * a + (c.toNat - 48)) 0

/-- Lines 244–246: split the parameter list on `;`, drop empty entries,
parse to integers; an empty list becomes the single code 0. -/
def parseSgrParams (params : Chars) : List Nat :=
  let codes := ((pySplitOn ';' params).filter (fun x => x ≠ [])).map natOfDigits
  if codes = [] then [0] else codes

/-- A token of `re.split(r'(\x1b\[[0-9;]*m)', text)`: literal text or one
escape's parameter characters. -/
inductive AnsiTok where
  | txt (s : Chars)
  | esc (params : Chars)
deriving Repr, DecidableEq

/-- Prepend a literal character to a token stream. -/
def pushTxt (c : Char) : List AnsiTok → List AnsiTok
  | AnsiTok.txt t :: more => AnsiTok.txt (c :: t) :: more
  | toks => AnsiTok.txt [c] :: toks

/-- Tokenizer for `re.split(r'(\x1b\[[0-9;]*m)', text)` (line 218): maximal
runs of literal text alternate with `m`-final escape sequences.  The fuel,
always instantiated with the input length, bounds the scanning steps. -/
def splitEscMF : Nat → Chars → List AnsiTok
  | 0, _ => []
  | _ + 1, [] => []
  | fuel + 1, c :: rest =>
    match matchEscFull (c :: rest) with
    | some (params, e, remain) =>
      if e = 'm' then AnsiTok.esc params :: splitEscMF fuel remain
      else pushTxt c (splitEscMF fuel rest)
    | none => pushTxt c (splitEscMF fuel rest)

def splitEscM (s : Chars) : List AnsiTok := splitEscMF s.length s

/-- Processing of one token by the main loop (lines 239–299). -/
def ansiEmitTok (a : AnsiAcc) : AnsiTok → AnsiAcc
  | AnsiTok.txt t => { a with out := a.out ++ [escape_html t] }
  | AnsiTok.esc params => sgrFinish ((parseSgrParams params).foldl sgrStep a)

/-- `_ansi_to_html_stateful` (line 216): convert ANSI to HTML, threading the
instance-level style state; any span left open persists into the next call. -/
def ansi_to_html_stateful (st : AnsiState) (text : Chars) : AnsiState × Chars :=
  let init : AnsiAcc :=
    { st := st, spanOpen := ansiActive st,
      out := if ansiActive st = true then
               (if ansiStyles st ≠ [] then [ansiSpanTag st] else [])
             else [] }
  let final := (splitEscM text).foldl ansiEmitTok init
  (final.st, final.out.flatten)

/-- `_close_ansi_spans` (line 304): close any open span and reset the state. -/
def close_ansi_spans (st : AnsiState) : AnsiState × Chars :=
  if ansiActive st then (ansiReset, "</span>".data) else (st, [])

/-! ## Slugs, whitespace, line splitting, auto-anchor patterns -/

/-- A character of the class `[a-z0-9_-]` (line 26). -/
def isSlugChar (c : Char) : Bool := ('a' ≤ c && c ≤ 'z') || c.isDigit || c = '_' || c = '-'

/-- `re.sub(r"[^a-z0-9_-]+", "-", s)`: each maximal run of other characters
becomes a single dash. -/
def subBadRunsF : Nat → Chars → Chars
  | 0, _ => []
  | _ + 1, [] => []
  | fuel + 1, c :: rest =>
    if isSlugChar c then c :: subBadRunsF fuel rest
    else '-' :: subBadRunsF fuel (rest.dropWhile (fun x => !isSlugChar x))

def subBadRuns (s : Chars) : Chars := subBadRunsF s.length s

/-- `re.sub(r"-+", "-", s)`: collapse dash runs. -/
def collapseDashesF : Nat → Chars → Chars
  | 0, _ => []
  | _ + 1, [] => []
  | fuel + 1, c :: rest =>
    if c = '-' then '-' :: collapseDashesF fuel (rest.dropWhile (fun x => x = '-'))
    else c :: collapseDashesF fuel rest

def collapseDashes (s : Chars) : Chars := collapseDashesF s.length s

def dropTrailingWhile (p : Char → Bool) (s : Chars) : Chars :=
  (s.reverse.dropWhile p).reverse

/-- Model of Python `str.strip(x)` for a single strip character. -/
def pyStripChar (x : Char) (s : Chars) : Chars :=
  dropTrailingWhile (fun c => c = x) (s.dropWhile (fun c => c = x))

/-- `_slugify` (line 24).  (`str.lower` is modelled on its ASCII range, which
covers every slug the logger produces.) -/
def slugify (s : Chars) : Chars :=
  let s1 := pyStripChar '-' (collapseDashes (subBadRuns (s.map Char.toLower)))
  if s1 = [] then "anchor".data else s1

/-- Python `\s` / `str.strip()` whitespace (ASCII range plus the common
Unicode space code points). -/
def isPySpace (c : Char) : Bool :=
  c = ' ' || c = '\t' || c = '\n' || c = '\r' || c.toNat = 11 || c.toNat = 12 ||
  c.toNat = 28 || c.toNat = 29 || c.toNat = 30 || c.toNat = 31 || c.toNat = 133 ||
  c.toNat = 160 || (8192 ≤ c.toNat && c.toNat ≤ 8202) || c.toNat = 8232 ||
  c.toNat = 8233 || c.toNat = 8239 || c.toNat = 8287 || c.toNat = 12288 || c.toNat = 5760

/-- `_is_non_printable_only` (line 83). -/
def is_non_printable_only (text : Chars) : Bool :=
  (dropTrailingWhile isPySpace (text.dropWhile isPySpace)).isEmpty ||
  text.all (fun c => if c = '\n' then true else (c.toNat < 32 || c.toNat = 127))

/-- Line-break characters of Python `str.splitlines`. -/
def isNlChar (c : Char) : Bool :=
  c = '\n' || c = '\r' || c.toNat = 11 || c.toNat = 12 || c.toNat = 28 ||
  c.toNat = 29 || c.toNat = 30 || c.toNat = 133 || c.toNat = 8232 || c.toNat = 8233

/-- Model of Python `str.splitlines` (`\r\n` counts as one break). -/
def pySplitlines : Chars → List Chars
  | [] => []
  | '\r' :: '\n' :: rest => [] :: pySplitlines rest
  | c :: rest =>
    if isNlChar c then [] :: pySplitlines rest
    else
      match pySplitlines rest with
      | [] => [[c]]
      | l :: ls => (c :: l) :: ls

/-- Model of `_RICH_PANEL_TOP_RE = r'^╭─\s*(.*?)\s*─*╮\s*$'` (line 19): the
lazy capture makes the tail groups greedy from the right end. -/
def matchPanelTop (line : Chars) : Option Chars :=
  match line with
  | c1 :: c2 :: rest =>
    if c1 = '╭' ∧ c2 = '─' then
      let s1 := dropTrailingWhile isPySpace rest
      match s1.getLast? with
      | some c =>
        if c = '╮' then
          let s2 := dropTrailingWhile (fun x => x = '─') s1.dropLast
          let s3 := dropTrailingWhile isPySpace s2
          some (s3.dropWhile isPySpace)
        else none
      | none => none
    else none
  | _ => none

/-- Model of `_MARKDOWN_HEADING_RE = r'^(#{3,})\s+(.+?)\s*$'` (line 21). -/
def matchMdHeading (line : Chars) : Option Chars :=
  let hashes := line.takeWhile (fun c => c = '#')
  if 3 ≤ hashes.length then
    let rest := line.drop hashes.length
    let ws := rest.takeWhile isPySpace
    if ws.length = 0 then none
    else
      let body := rest.drop ws.length
      let title := dropTrailingWhile isPySpace body
      if title ≠ [] then some title
      else if 2 ≤ ws.length then some [ws.getLastD ' ']
      else none
  else none

/-! ## Writer session state and the marker-based file engine -/

/-- The mutable state of a `LogTeeHTML` instance that the core operations
touch: the on-disk file plus the session fields of `__init__`
(lines 110–122, 324).  `currentSectionId = none` models the attribute
never having been set. -/
structure LogState where
  file : Chars
  markerCache : Option Nat
  lastChunkType : Option String
  lastChunkBase : Option String
  ansi : AnsiState
  currentSectionId : Option String
deriving Repr, DecidableEq

/-- The re-scan of `_find_marker` (lines 178–196): `rfind` over the trailing
32 KiB, then over the whole file. -/
def findScan (file : Chars) : Option Nat :=
  let filesize := file.length
  let readSize := min filesize (32 * 1024)
  let tail := (file.drop (filesize - readSize)).take readSize
  match rfindIdx FOOTER_MARKER tail with
  | some idx => some (filesize - readSize + idx)
  | none =>
    match rfindIdx FOOTER_MARKER file with
    | some idx => some idx
    | none => none

/-- `_find_marker` (line 171): trust the cached offset only when re-reading
that span still yields the marker; otherwise re-scan.  Returns the position
and the updated cache; `none` models `RuntimeError('Footer marker not found')`. -/
def find_marker (file : Chars) (cache : Option Nat) : Option (Nat × Option Nat) :=
  match cache with
  | some i =>
    if (file.drop i).take FOOTER_MARKER.length = FOOTER_MARKER then some (i, some i)
    else
      match findScan file with
      | some p => some (p, some p)
      | none => none
  | none =>
    match findScan file with
    | some p => some (p, some p)
    | none => none

/-- `_insert_bytes` (line 614): clear the cache, locate the marker, splice
`b` immediately before it (seek + write + truncate), move the cache. -/
def insert_bytes (st : LogState) (b : Chars) : Option LogState :=
  match find_marker st.file none with
  | none => none
  | some (pos, _) =>
    let footerTail := st.file.drop (pos + FOOTER_MARKER.length)
    let newFile := st.file.take pos ++ (b ++ FOOTER_MARKER ++ footerTail)
    some { st with file := newFile, markerCache := some (pos + b.length) }

/-- `_find_pos_of_last` (line 385): `rfind` of `pat` over a window of up to
`maxSearch` bytes ending at `beforePos`.  No whole-file fallback. -/
def find_pos_of_last (file pat : Chars) (beforePos maxSearch : Nat) : Option Nat :=
  let searchBytes := min beforePos maxSearch
  let tail := (file.drop (beforePos - searchBytes)).take searchBytes
  match rfindIdx pat tail with
  | some idx => some (beforePos - searchBytes + idx)
  | none => none

/-- `_find_last_chunk_start` (line 372): last `<div class="{kind}"` within the
512 KiB window before the marker.  The inner option is the search result; the
outer `none` models a marker-missing error. -/
def find_last_chunk_start (st : LogState) (chunkType : String) :
    Option (Option Nat × LogState) :=
  match find_marker st.file st.markerCache with
  | none => none
  | some (markerPos, cache') =>
    let st' := { st with markerCache := cache' }
    let readSize := min markerPos (512 * 1024)
    let tail := (st.file.drop (markerPos - readSize)).take readSize
    let needle := ("<div class=\"" ++ chunkType ++ "\"").data
    match rfindIdx needle tail with
    | some idx => some (some (markerPos - readSize + idx), st')
    | none => some (none, st')

/-- `_insert_before_closer` (line 627): splice `inner` before the last
`</pre></div>\n` found in the 512 KiB window before the marker, falling back
to a plain insert at the marker when the window holds no closer. -/
def insert_before_closer (st : LogState) (inner : Chars) : Option LogState :=
  match find_marker st.file st.markerCache with
  | none => none
  | some (markerPos, cache') =>
    let st1 := { st with markerCache := cache' }
    match find_pos_of_last st1.file CHUNK_CLOSER markerPos (512 * 1024) with
    | none =>
      match find_marker st1.file none with
      | none => none
      | some (mp2, _) =>
        let footerTail := st1.file.drop (mp2 + FOOTER_MARKER.length)
        let newFile := st1.file.take mp2 ++ (inner ++ FOOTER_MARKER ++ footerTail)
        some { st1 with file := newFile, markerCache := some (mp2 + inner.length) }
    | some posCloser =>
      let footerTail := st1.file.drop (markerPos + FOOTER_MARKER.length)
      let newFile := st1.file.take posCloser ++
        (inner ++ CHUNK_CLOSER ++ FOOTER_MARKER ++ footerTail)
      let st2 := { st1 with file := newFile }
      match find_marker st2.file st2.markerCache with
      | none => none
      | some (mp3, _) => some { st2 with markerCache := some mp3 }

/-- The first `<pre>(.*?)</pre>` match (line 426): content start and end.
The lazy group means: first `<pre>`, then the first `</pre>` after it. -/
def preExtract (s : Chars) : Option (Nat × Nat) :=
  match ffindIdx "<pre>".data s with
  | none => none
  | some i =>
    match ffindIdx "</pre>".data (s.drop (i + 5)) with
    | none => none
    | some k => some (i + 5, i + 5 + k)

/-- Python `text.split(sep)[-1]`: the segment after the last separator. -/
def afterLastSep (sep : Char) (s : Chars) : Chars :=
  (s.reverse.takeWhile (fun c => !(c = sep))).reverse

/-- `_apply_carriage_return` (line 398). -/
def apply_carriage_return (st : LogState) (text : Chars) (chunkType : String) :
    Option LogState :=
  let base := if chunkType = "stderr" then "stderr" else "stdout"
  match find_last_chunk_start st base with
  | none => none
  | some (none, st1) =>
    let fallback := ("<div class=\"" ++ chunkType ++ "\"><pre>").data ++
      escape_html (strip_ansi text) ++ "</pre></div>\n".data
    match find_marker st1.file none with
    | none => none
    | some (mp, _) =>
      let footerTail := st1.file.drop (mp + FOOTER_MARKER.length)
      let newFile := st1.file.take mp ++ (fallback ++ FOOTER_MARKER ++ footerTail)
      some { st1 with file := newFile, markerCache := some (mp + fallback.length) }
  | some (some lastStart, st1) =>
    match find_marker st1.file st1.markerCache with
    | none => none
    | some (markerPos, cache1) =>
      let st2 := { st1 with markerCache := cache1 }
      let footerTail := st2.file.drop (markerPos + FOOTER_MARKER.length)
      let chunkText := (st2.file.drop lastStart).take (markerPos - lastStart)
      match preExtract chunkText with
      | none =>
        let det := "<details><summary>ANSI cursor</summary><pre>".data ++
          escape_html text ++ "</pre></details>\n".data
        match find_marker st2.file none with
        | none => none
        | some (mp2, _) =>
          let ft2 := st2.file.drop (mp2 + FOOTER_MARKER.length)
          let newFile := st2.file.take mp2 ++ (det ++ FOOTER_MARKER ++ ft2)
          some { st2 with file := newFile, markerCache := some (mp2 + det.length) }
      | some (ps, pe) =>
        let preContent := (chunkText.drop ps).take (pe - ps)
        let newSegment := escape_html (strip_ansi (afterLastSep '\r' text))
        let newPre := List.intercalate ['\n']
          ((pySplitOn '\n' preContent).dropLast ++ [newSegment])
        let newChunkText := chunkText.take ps ++ newPre ++ chunkText.drop pe
        let newFile := st2.file.take lastStart ++
          (newChunkText ++ FOOTER_MARKER ++ footerTail)
        let st3 := { st2 with file := newFile }
        match find_marker st3.file st3.markerCache with
        | none => none
        | some (mp3, _) => some { st3 with markerCache := some mp3 }

/-- `end_chunk` (line 358). -/
def end_chunk (st : LogState) : Option LogState :=
  let st1 := { st with lastChunkType := none, lastChunkBase := none }
  let (ansi', closeSpan) := close_ansi_spans st1.ansi
  let st2 := { st1 with ansi := ansi' }
  if closeSpan ≠ [] then insert_bytes st2 closeSpan else some st2

/-! ## Public operations -/

/-- `anchor` (line 326).  `ts` (the `datetime.now().isoformat()` timestamp)
and `uuidHex` (the 6 hex digits of `uuid.uuid4().hex[:6]`) are external
inputs of the run.  The clickable terminal link (lines 340–356) writes to the
terminal only and does not touch the file. -/
def anchor_op (st : LogState) (anchorText : Chars) (anchorName : Option String)
    (ts uuidHex : String) : Option LogState :=
  match end_chunk st with
  | none => none
  | some st1 =>
    let name : String :=
      match anchorName with
      | some n => n
      | none => String.mk (slugify anchorText) ++ "-" ++ uuidHex
    let dataSection : String :=
      match st1.currentSectionId with
      | some s => if s.isEmpty then name else s
      | none => name
    let h := ("<h2 id=\"" ++ name ++ "\" data-section=\"" ++ dataSection ++
      "\" data-timestamp=\"" ++ ts ++ "\" title=\"" ++ ts ++ "\">").data ++
      escape_html anchorText ++ "</h2>\n".data
    insert_bytes st1 h

/-- `start` (line 318).  The section name is spliced into the `<h1>` without
HTML escaping, exactly as in the source. -/
def start_op (st : LogState) (sectionName : Chars) : Option LogState :=
  match end_chunk st with
  | none => none
  | some st1 =>
    let sid := slugify sectionName
    let h := ("<h1 id=\"" ++ String.mk sid ++ "\">").data ++ sectionName ++ "</h1>\n".data
    match insert_bytes st1 h with
    | none => none
    | some st2 => some { st2 with currentSectionId := some (String.mk sid) }

/-- `inject_html` (line 553). -/
def inject_html (st : LogState) (htmlContent : Chars) (anchorText : Option Chars)
    (anchorName : Option String) (ts uuidHex : String) : Option LogState :=
  let st1 := { st with lastChunkType := none, lastChunkBase := none }
  let spanClose := close_ansi_spans st1.ansi
  let st2 := { st1 with ansi := spanClose.1 }
  let step1 : Option LogState :=
    if spanClose.2 ≠ [] then insert_bytes st2 spanClose.2 else some st2
  match step1 with
  | none => none
  | some st3 =>
    let step2 : Option LogState :=
      match anchorText with
      | none => some st3
      | some atext =>
        let name : String :=
          match anchorName with
          | some n => n
          | none => String.mk (slugify atext) ++ "-" ++ uuidHex
        anchor_op st3 atext (some name) ts uuidHex
    match step2 with
    | none => none
    | some st4 =>
      let wrapper := "<div class=\"html-injection\">".data ++ htmlContent ++ "</div>\n".data
      match insert_bytes st4 wrapper with
      | none => none
      | some st5 =>
        match find_marker st5.file st5.markerCache with
        | none => none
        | some (_, cache') => some { st5 with markerCache := cache' }

/-- `inject_image` (line 572).  `b64` — the base-64 PNG encoding produced by
PIL — is an external input of the run. -/
def inject_image (st : LogState) (b64 : Chars) (anchorText : Chars)
    (anchorName : Option String) (ts uuidHex : String) : Option LogState :=
  let html := "<img src=\"data:image/png;base64,".data ++ b64 ++
    "\" alt=\"".data ++ anchorText ++ "\"/>\n".data
  inject_html st html (some anchorText) anchorName ts uuidHex

/-- `r.get(k, "")` on a row modelled as an association list (values already
passed through `str`). -/
def dictGet (r : List (String × Chars)) (k : String) : Chars :=
  match r.find? (fun kv => kv.1 = k) with
  | some kv => kv.2
  | none => []

/-- `inject_table` (line 581).  The `text_preview` path writes to the
terminal only, not to the file, and is not modelled. -/
def inject_table (st : LogState) (tableData : List (List (String × Chars)))
    (anchorText : Chars) (ts uuidHex : String) : Option LogState :=
  match tableData with
  | [] =>
    inject_html st "<div><em>empty table</em></div>\n".data (some anchorText) none ts uuidHex
  | firstRow :: _ =>
    let keys := firstRow.map (fun kv => kv.1)
    let headHtml := (keys.map (fun k =>
      "<th>".data ++ escape_html k.data ++ "</th>".data)).flatten
    let rowHtml := fun (r : List (String × Chars)) =>
      "<tr>".data ++ (keys.map (fun k =>
        "<td>".data ++ escape_html (dictGet r k) ++ "</td>".data)).flatten ++ "</tr>".data
    let html := "<table border=\"1\"><thead><tr>".data ++ headHtml ++
      "</tr></thead><tbody>".data ++
      List.intercalate ['\n'] (tableData.map rowHtml) ++ "</tbody></table>\n".data
    inject_html st html (some anchorText) none ts uuidHex

/-- `f'{n:4d}'`. -/
def padLeft4 (n : Nat) : Chars :=
  let digits := (toString n).data
  List.replicate (4 - digits.length) ' ' ++ digits

/-- `inject_json` (line 604).  `txt` is the `json.dumps(data, indent=2)`
rendering, an external input of the run. -/
def inject_json (st : LogState) (txt : Chars) (anchorText : Chars)
    (lineNumbers : Bool) (ts uuidHex : String) : Option LogState :=
  let html :=
    if lineNumbers then
      let numbered := List.intercalate ['\n']
        (((pySplitlines txt).enum).map (fun p => padLeft4 (p.1 + 1) ++ ": ".data ++ p.2))
      "<pre>".data ++ escape_html numbered ++ "</pre>\n".data
    else
      "<pre>".data ++ escape_html txt ++ "</pre>\n".data
  inject_html st html (some anchorText) none ts uuidHex

/-! ### `print` (line 469) -/

def bsChar : Char := Char.ofNat 8

/-- Lines 495–520: ANSI/cursor classification, sticky `ansi-cursor` mode and
its exit.  Returns the effective chunk kind and the updated
`_last_chunk_type` / `_last_chunk_base`. -/
def classify_chunk (text : Chars) (chunkType0 : String)
    (lastType lastBase : Option String) : String × Option String × Option String :=
  let inText := containsSub [escChar, '['] text
  let finals := if inText then escSeqFinals text else []
  let hasAnsi : Bool := !finals.isEmpty
  let onlyM : Bool := finals.all (fun e => e = 'm')
  let ct1 := if inText && !onlyM then "ansi-cursor" else chunkType0
  let ct2 := if lastType = some "ansi-cursor" then "ansi-cursor" else ct1
  let hasControlChars : Bool := text.contains '\r' || text.contains bsChar
  if decide (lastType = some "ansi-cursor") && decide (text.getLast? = some '\n') &&
      (!hasAnsi || onlyM) && !hasControlChars then
    ("stdout", none, none)
  else
    (ct2, lastType, lastBase)

/-- Lines 522–530: convert ANSI to HTML where possible, otherwise escape. -/
def compute_escaped (ansi : AnsiState) (text : Chars) (ct : String) :
    AnsiState × Chars :=
  if containsSub [escChar, '['] text then
    if ct = "ansi-cursor" then ansi_to_html_stateful ansi (strip_esc_non_m text)
    else ansi_to_html_stateful ansi text
  else (ansi, escape_html text)

/-- Lines 476–493: the auto-anchor pre-check applied to one line. -/
def lineAnchorTitle (raw : Chars) : Option Chars :=
  if 160 < raw.length then none
  else
    let line := pyStripChar '\r' raw
    if "╭─".data.isPrefixOf line then
      match matchPanelTop line with
      | some title => if title ≠ [] then some title else none
      | none => matchMdHeading line
    else matchMdHeading line

/-- Line 476: the fast pre-check guarding the auto-anchor loop. -/
def autoAnchorGuard (text : Chars) : Bool :=
  "╭─".data.isPrefixOf text || "###".data.isPrefixOf text ||
  containsSub "\n╭─".data text || containsSub "\n###".data text

/-- The auto-anchor loop over `text.splitlines()`, consuming one
(timestamp, uuid) pair per inserted anchor. -/
def autoAnchorLines (oracle : Nat → String × String) :
    List Chars → LogState → Nat → Option (LogState × Nat)
  | [], st, k => some (st, k)
  | l :: ls, st, k =>
    match lineAnchorTitle l with
    | none => autoAnchorLines oracle ls st k
    | some title =>
      match anchor_op st title none (oracle k).1 (oracle k).2 with
      | none => none
      | some st' => autoAnchorLines oracle ls st' (k + 1)

/-- `print` (line 469).  The branches on `_is_non_printable_only`
(lines 540–545) insert exactly the same bytes, so they are modelled by a
single `insert_before_closer` call. -/
def print_op (st : LogState) (data : Chars) (chunkType0 : String)
    (oracle : Nat → String × String) : Option LogState :=
  let text := data
  let stepA : Option (LogState × Nat) :=
    if text ≠ [] ∧ autoAnchorGuard text = true then
      autoAnchorLines oracle (pySplitlines text) st 0
    else some (st, 0)
  match stepA with
  | none => none
  | some (stA, _) =>
    let cls := classify_chunk text chunkType0 stA.lastChunkType stA.lastChunkBase
    let ct := cls.1
    let stB := { stA with lastChunkType := cls.2.1, lastChunkBase := cls.2.2 }
    let esc := compute_escaped stB.ansi text ct
    let stC := { stB with ansi := esc.1 }
    let mergeable := ct = "stdout" ∨ ct = "stderr" ∨ ct = "ansi-cursor"
    if text.contains '\r' = true ∧ mergeable ∧ stC.lastChunkBase = some ct then
      apply_carriage_return stC text ct
    else if mergeable ∧ stC.lastChunkBase = some ct then
      insert_before_closer stC esc.2
    else
      let wrapper := ("<div class=\"" ++ ct ++ "\"><pre>").data ++ esc.2 ++
        "</pre></div>\n".data
      match insert_bytes stC wrapper with
      | none => none
      | some stD =>
        if mergeable then
          some { stD with lastChunkType := some ct, lastChunkBase := some ct }
        else
          some { stD with lastChunkType := none, lastChunkBase := none }

/-- One public operation of the claim list, with its external inputs. -/
inductive LogOp where
  | print (data : Chars) (chunkType : String) (oracle : Nat → String × String)
  | start (sectionName : Chars)
  | anchor (text : Chars) (name : Option String) (ts uuidHex : String)
  | injectHtml (html : Chars) (anchorText : Option Chars) (name : Option String) (ts uuidHex : String)
  | injectImage (b64 : Chars) (anchorText : Chars) (name : Option String) (ts uuidHex : String)
  | injectTable (tableData : List (List (String × Chars))) (anchorText : Chars) (ts uuidHex : String)
  | injectJson (txt : Chars) (anchorText : Chars) (lineNumbers : Bool) (ts uuidHex : String)
  | endChunk

def runOp (st : LogState) : LogOp → Option LogState
  | .print d ct oracle => print_op st d ct oracle
  | .start n => start_op st n
  | .anchor t n ts u => anchor_op st t n ts u
  | .injectHtml h a n ts u => inject_html st h a n ts u
  | .injectImage b a n ts u => inject_image st b a n ts u
  | .injectTable td a ts u => inject_table st td a ts u
  | .injectJson txt a ln ts u => inject_json st txt a ln ts u
  | .endChunk => end_chunk st

/-! ## Session fixtures for the concrete-trace claims

Modelled from the spec: the template files (`pretty.html` / `simple.html`)
the package ships are not under `src/`; per the spec the document is "Header
bytes (fixed) + ordered sequence of Blocks + Marker + Footer tail bytes
(fixed)".  A minimal representative header and footer tail stand in for the
template around the marker. -/

def specTemplateHead : Chars := "<html><body>\n".data

def specTemplateTail : Chars := "\n</body></html>\n".data

/-- A fresh writer session on the representative template: the state right
after `__enter__` (lines 128–145) — file written, marker located and cached,
no open chunk, clean ANSI state, no section started. -/
def freshState : LogState :=
  { file := specTemplateHead ++ FOOTER_MARKER ++ specTemplateTail,
    markerCache := some specTemplateHead.length,
    lastChunkType := none, lastChunkBase := none,
    ansi := ansiReset, currentSectionId := none }

/-- A fixed timestamp/uuid supply for runs in which no anchor is inserted. -/
def noAnchorOracle : Nat → String × String := fun _ => ("", "")

/-- The lines a `<pre>` block content displays when rendered: the HTML parser
normalizes a raw `\r` to a line break exactly like `\n` (claim-side notion of
"rendered line"). -/
def renderedLines (content : Chars) : List Chars :=
  ((pySplitOn '\n' content).map (pySplitOn '\r')).flatten

/-- C2 (counterexample): on a fresh session — no previously open block —
`print("X\rY")` takes the new-chunk branch, not the carriage-return branch
(line 535 requires `_last_chunk_base == chunk_type`); the block's `<pre>`
content is the verbatim `"X\rY"`, which renders as the two lines `X`, `Y`,
not as the single line `Y`. -/
theorem print_cr_fresh_counterexample :
    (print_op freshState "X\rY".data "stdout" noAnchorOracle).map LogState.file =
      some (specTemplateHead ++
        ("<div class=\"stdout\"><pre>".data ++ "X\rY".data ++ "</pre></div>\n".data) ++
        FOOTER_MARKER ++ specTemplateTail) ∧
    renderedLines "X\rY".data = ["X".data, "Y".data] := by decide

/-- C2 (amended): `print("X\rY")` performs the carriage-return overwrite —
leaving the block's last rendered line exactly `Y`, a single line — when a
block of the same kind is already open (here opened by `print("hello")`); on
a fresh session with no open block the text is written into a new block
verbatim as `X\rY`. -/
theorem print_cr_overwrite_amended :
    ((print_op freshState "hello".data "stdout" noAnchorOracle).bind
      (fun s => print_op s "X\rY".data "stdout" noAnchorOracle)).map LogState.file =
      some (specTemplateHead ++
        ("<div class=\"stdout\"><pre>".data ++ "Y".data ++ "</pre></div>\n".data) ++
        FOOTER_MARKER ++ specTemplateTail) ∧
    renderedLines "Y".data = ["Y".data] := by decide

/-- C3 (counterexample): after `print("\x1b[31mred")` and
`print(" still red\x1b[0m")` the file holds TWO `<span` openers but only ONE
`</span>` closer — the span opened by the first call is never closed, and the
two fragments sit in two nested spans, not one contiguous span.  (The second
call re-emits an opening span from the persisted state, line 222, and the
reset code 0 closes only that inner span.) -/
theorem style_span_balance_counterexample :
    ((print_op freshState "\x1b[31mred".data "stdout" noAnchorOracle).bind
      (fun s => print_op s " still red\x1b[0m".data "stdout" noAnchorOracle)).map
        LogState.file =
      some (specTemplateHead ++
        ("<div class=\"stdout\"><pre>".data ++
          "<span style=\"color:#aa0000\">red<span style=\"color:#aa0000\"> still red</span>".data ++
          "</pre></div>\n".data) ++
        FOOTER_MARKER ++ specTemplateTail) ∧
    occCount "<span".data
      (specTemplateHead ++
        ("<div class=\"stdout\"><pre>".data ++
          "<span style=\"color:#aa0000\">red<span style=\"color:#aa0000\"> still red</span>".data ++
          "</pre></div>\n".data) ++
        FOOTER_MARKER ++ specTemplateTail) = 2 ∧
    occCount "</span>".data
      (specTemplateHead ++
        ("<div class=\"stdout\"><pre>".data ++
          "<span style=\"color:#aa0000\">red<span style=\"color:#aa0000\"> still red</span>".data ++
          "</pre></div>\n".data) ++
        FOOTER_MARKER ++ specTemplateTail) = 1 := by decide

/-- C3 (amended): the color does persist across the two calls — both `red`
and ` still red` are rendered under `color:#aa0000` — but via two nested
spans: the second call re-opens a `color:#aa0000` span and the reset closes
only that inner one; the outer span from the first call stays unclosed in
the emitted bytes. -/
theorem style_persistence_amended :
    ((print_op freshState "\x1b[31mred".data "stdout" noAnchorOracle).bind
      (fun s => print_op s " still red\x1b[0m".data "stdout" noAnchorOracle)).map
        LogState.file =
      some (specTemplateHead ++
        ("<div class=\"stdout\"><pre>".data ++
          ("<span style=\"color:#aa0000\">".data ++ "red".data ++
           "<span style=\"color:#aa0000\">".data ++ " still red".data ++ "</span>".data) ++
          "</pre></div>\n".data) ++
        FOOTER_MARKER ++ specTemplateTail) := by decide

/-- C5: two same-kind prints merge into a single `stdout` block holding the
concatenation (the second text spliced before the block's closing tag), and
the whole file then contains exactly one `stdout` block opener; a `stdout`
print followed by a `stderr` print yields two separate blocks. -/
theorem merge_policy_same_and_diff_kind :
    (((print_op freshState "a".data "stdout" noAnchorOracle).bind
        (fun s => print_op s "b".data "stdout" noAnchorOracle)).map LogState.file =
      some (specTemplateHead ++
        ("<div class=\"stdout\"><pre>".data ++ "ab".data ++ "</pre></div>\n".data) ++
        FOOTER_MARKER ++ specTemplateTail)) ∧
    occCount "<div class=\"stdout\"".data
      (specTemplateHead ++
        ("<div class=\"stdout\"><pre>".data ++ "ab".data ++ "</pre></div>\n".data) ++
        FOOTER_MARKER ++ specTemplateTail) = 1 ∧
    (((print_op freshState "a".data "stdout" noAnchorOracle).bind
        (fun s => print_op s "b".data "stderr" noAnchorOracle)).map LogState.file =
      some (specTemplateHead ++
        "<div class=\"stdout\"><pre>a</pre></div>\n".data ++
        "<div class=\"stderr\"><pre>b</pre></div>\n".data ++
        FOOTER_MARKER ++ specTemplateTail)) := by decide

/-- C4 (counterexample): a chunk classified as cursor-control (here by the
cursor-up sequence `ESC[2A`) is written with the div class `ansi-cursor`, and
the byte sequence `cursor-control` appears nowhere in the file — the on-disk
kind string of the spec is wrong. -/
theorem chunk_class_name_counterexample :
    (print_op freshState "\x1b[2A".data "stdout" noAnchorOracle).map LogState.file =
      some (specTemplateHead ++
        ("<div class=\"ansi-cursor\"><pre>".data ++ [] ++ "</pre></div>\n".data) ++
        FOOTER_MARKER ++ specTemplateTail) ∧
    containsSub "cursor-control".data
      (specTemplateHead ++
        ("<div class=\"ansi-cursor\"><pre>".data ++ [] ++ "</pre></div>\n".data) ++
        FOOTER_MARKER ++ specTemplateTail) = false := by decide

/-! ## Correctness of the marker engine under the document shape -/

theorem file_take_head (head t : Chars) :
    (head ++ FOOTER_MARKER ++ t).take head.length = head := by
  rw [List.append_assoc]
  exact List.take_left head _

theorem file_drop_tail (head t : Chars) :
    (head ++ FOOTER_MARKER ++ t).drop (head.length + FOOTER_MARKER.length) = t := by
  rw [← List.length_append]
  exact List.drop_left _ t

theorem matchesAt_of_window {p x : Chars} {d w i : Nat}
    (h : matchesAt p ((x.drop d).take w) i = true) : matchesAt p x (d + i) = true := by
  simp only [matchesAt] at h ⊢
  rw [isPrefixOf_eq_true_iff] at h ⊢
  rw [List.drop_take] at h
  have h2 : (x.drop d).drop i = x.drop (d + i) := by
    rw [List.drop_drop]
  rw [h2] at h
  exact h.trans (List.take_prefix _ _)

theorem marker_ne_nil : FOOTER_MARKER ≠ [] := by decide

/-- Under a unique marker occurrence, the tail-window re-scan of
`_find_marker` locates exactly that occurrence. -/
theorem findScan_eq {head t : Chars}
    (hocc : occCount FOOTER_MARKER (head ++ FOOTER_MARKER ++ t) = 1) :
    findScan (head ++ FOOTER_MARKER ++ t) = some head.length := by
  have hself : matchesAt FOOTER_MARKER (head ++ FOOTER_MARKER ++ t) head.length = true :=
    matchesAt_self_append _ _ _
  simp only [findScan]
  cases hw : rfindIdx FOOTER_MARKER
      (((head ++ FOOTER_MARKER ++ t).drop
          ((head ++ FOOTER_MARKER ++ t).length -
            min (head ++ FOOTER_MARKER ++ t).length (32 * 1024))).take
        (min (head ++ FOOTER_MARKER ++ t).length (32 * 1024))) with
  | some idx =>
    have hm := rfindIdx_some_matches hw
    have hg := matchesAt_of_window hm
    have := matchesAt_unique marker_ne_nil hocc hg hself
    simp only [hw]
    rw [this]
  | none =>
    simp only [hw]
    rw [rfindIdx_eq_of_unique marker_ne_nil hocc hself]

/-- `_find_marker` always yields the unique marker position, whatever the
cache holds. -/
theorem find_marker_eq {file head t : Chars} (cache : Option Nat)
    (hf : file = head ++ FOOTER_MARKER ++ t)
    (hocc : occCount FOOTER_MARKER file = 1) :
    find_marker file cache = some (head.length, some head.length) := by
  subst hf
  match cache with
  | none =>
    simp only [find_marker, findScan_eq hocc]
  | some i =>
    simp only [find_marker]
    by_cases hp : ((head ++ FOOTER_MARKER ++ t).drop i).take FOOTER_MARKER.length =
        FOOTER_MARKER
    · rw [if_pos hp]
      have hm : matchesAt FOOTER_MARKER (head ++ FOOTER_MARKER ++ t) i = true := by
        simp only [matchesAt]
        rw [isPrefixOf_eq_true_iff]
        rw [List.prefix_iff_eq_take]
        exact hp.symm
      have hself : matchesAt FOOTER_MARKER (head ++ FOOTER_MARKER ++ t) head.length = true :=
        matchesAt_self_append _ _ _
      have : i = head.length := matchesAt_unique marker_ne_nil hocc hm hself
      rw [this]
    · rw [if_neg hp]
      simp only [findScan_eq hocc]

/-- `_insert_bytes` under the document shape: splice `b` before the marker,
keep the footer tail, advance the cache. -/
theorem insert_bytes_eq {st : LogState} {head t : Chars}
    (hf : st.file = head ++ FOOTER_MARKER ++ t)
    (hocc : occCount FOOTER_MARKER st.file = 1) (b : Chars) :
    insert_bytes st b = some { st with
      file := head ++ b ++ FOOTER_MARKER ++ t,
      markerCache := some (head.length + b.length) } := by
  simp only [insert_bytes, find_marker_eq none hf hocc]
  rw [hf, file_take_head, file_drop_tail]
  simp [List.append_assoc]

theorem rfindIdx_ne_none_of_match {p s : Chars} {i : Nat} (hne : p ≠ [])
    (hi : matchesAt p s i = true) : rfindIdx p s ≠ none := by
  have hlen := matchesAt_add_le_length hne hi
  have hp : 0 < p.length := List.length_pos.mpr hne
  have hple : p.length ≤ s.length := by omega
  have hile : i ≤ s.length - p.length := by omega
  rcases rfindAux_exists hi hile with ⟨j, _, hj⟩
  simp [rfindIdx, hple, hj]

theorem findScan_ne_none_of_match {file : Chars} {i : Nat}
    (hi : matchesAt FOOTER_MARKER file i = true) : findScan file ≠ none := by
  simp only [findScan]
  cases hw : rfindIdx FOOTER_MARKER
      ((file.drop (file.length - min file.length (32 * 1024))).take
        (min file.length (32 * 1024))) with
  | some idx => simp
  | none =>
    cases hr : rfindIdx FOOTER_MARKER file with
    | some p => simp
    | none => exact absurd hr (rfindIdx_ne_none_of_match marker_ne_nil hi)

theorem findScan_none_of_no_match {file : Chars}
    (h : ∀ i, matchesAt FOOTER_MARKER file i = false) : findScan file = none := by
  simp only [findScan]
  have hw : rfindIdx FOOTER_MARKER
      ((file.drop (file.length - min file.length (32 * 1024))).take
        (min file.length (32 * 1024))) = none := by
    apply rfindIdx_none_of_no_match
    intro i
    cases hm : matchesAt FOOTER_MARKER
        ((file.drop (file.length - min file.length (32 * 1024))).take
          (min file.length (32 * 1024))) i with
    | false => rfl
    | true => exact absurd (matchesAt_of_window hm) (by simp [h])
  rw [hw, rfindIdx_none_of_no_match h]

/-- C9: `_find_marker` trusts the cached offset only if re-reading exactly
that span still yields the marker bytes; otherwise it re-scans (bounded tail
window first, whole-file fallback, which is what `findScan` performs); and it
raises (`none`) if and only if the marker bytes are absent from the file. -/
theorem find_marker_spec (file : Chars) (cache : Option Nat) :
    (∀ i, cache = some i →
      (file.drop i).take FOOTER_MARKER.length = FOOTER_MARKER →
      find_marker file cache = some (i, some i)) ∧
    (∀ i, cache = some i →
      (file.drop i).take FOOTER_MARKER.length ≠ FOOTER_MARKER →
      find_marker file cache = (findScan file).map (fun p => (p, some p))) ∧
    (find_marker file none = (findScan file).map (fun p => (p, some p))) ∧
    (find_marker file cache = none ↔ containsSub FOOTER_MARKER file = false) := by
  have hnomatch : containsSub FOOTER_MARKER file = false ↔
      ∀ i, matchesAt FOOTER_MARKER file i = false := by
    constructor
    · intro hc i
      cases hm : matchesAt FOOTER_MARKER file i with
      | false => rfl
      | true =>
        have := containsSub_iff_exists.mpr ⟨i, hm⟩
        rw [hc] at this
        cases this
    · intro h
      cases hc : containsSub FOOTER_MARKER file with
      | false => rfl
      | true =>
        rcases containsSub_iff_exists.mp hc with ⟨i, hi⟩
        rw [h i] at hi
        cases hi
  refine ⟨?_, ?_, ?_, ?_⟩
  · intro i hc hp
    subst hc
    simp only [find_marker, if_pos hp]
  · intro i hc hp
    subst hc
    simp only [find_marker, if_neg hp]
    cases hs : findScan file <;> simp [hs]
  · simp only [find_marker]
    cases hs : findScan file <;> simp [hs]
  · constructor
    · intro hnone
      rw [hnomatch]
      intro i
      cases hm : matchesAt FOOTER_MARKER file i with
      | false => rfl
      | true =>
        exfalso
        have hscan := findScan_ne_none_of_match hm
        match cache, hnone with
        | none, hnone =>
          simp only [find_marker] at hnone
          cases hs : findScan file with
          | some p => rw [hs] at hnone; cases hnone
          | none => exact hscan hs
        | some j, hnone =>
          simp only [find_marker] at hnone
          by_cases hp : (file.drop j).take FOOTER_MARKER.length = FOOTER_MARKER
          · rw [if_pos hp] at hnone; cases hnone
          · rw [if_neg hp] at hnone
            cases hs : findScan file with
            | some p => rw [hs] at hnone; cases hnone
            | none => exact hscan hs
    · intro habs
      have hno := hnomatch.mp habs
      have hscan := findScan_none_of_no_match hno
      match cache with
      | none => simp [find_marker, hscan]
      | some j =>
        simp only [find_marker]
        by_cases hp : (file.drop j).take FOOTER_MARKER.length = FOOTER_MARKER
        · exfalso
          have hm : matchesAt FOOTER_MARKER file j = true := by
            simp only [matchesAt]
            rw [isPrefixOf_eq_true_iff, List.prefix_iff_eq_take]
            exact hp.symm
          rw [hno j] at hm
          cases hm
        · rw [if_neg hp, hscan]

theorem find_marker_spec_witness :
    find_marker ("<body>".data ++ FOOTER_MARKER ++ "</body>".data) (some 6) =
      some (6, some 6) ∧
    (find_marker "<body></body>".data none = none ↔
      containsSub FOOTER_MARKER "<body></body>".data = false) :=
  ⟨(find_marker_spec ("<body>".data ++ FOOTER_MARKER ++ "</body>".data) (some 6)).1 6 rfl
      (by decide),
   (find_marker_spec "<body></body>".data none).2.2.2⟩

/-! ## C8: the SGR code semantics -/

/-- The position a style property takes in the fixed emission order of
lines 281–291: font-weight, opacity, text-decoration, color,
background-color. -/
def styleRank (s : String) : Nat :=
  if s = "font-weight:700" then 0
  else if s = "opacity:0.7" then 1
  else if s = "text-decoration:underline" then 2
  else if "color:".data.isPrefixOf s.data then 3
  else if "background-color:".data.isPrefixOf s.data then 4
  else 5

theorem styleRank_color (c : String) : styleRank ("color:" ++ c) = 3 := by
  have hdata : ("color:" ++ c).data = "color:".data ++ c.data := String.data_append _ _
  have h1 : ("color:" ++ c) ≠ "font-weight:700" := by
    intro h
    have := congrArg String.data h
    rw [hdata] at this
    simp at this
  have h2 : ("color:" ++ c) ≠ "opacity:0.7" := by
    intro h
    have := congrArg String.data h
    rw [hdata] at this
    simp at this
  have h3 : ("color:" ++ c) ≠ "text-decoration:underline" := by
    intro h
    have := congrArg String.data h
    rw [hdata] at this
    simp at this
  have h4 : "color:".data.isPrefixOf ("color:" ++ c).data = true := by
    rw [hdata, isPrefixOf_eq_true_iff]
    exact List.prefix_append _ _
  simp [styleRank, h1, h2, h3, h4]

theorem styleRank_bg (c : String) : styleRank ("background-color:" ++ c) = 4 := by
  have hdata : ("background-color:" ++ c).data = "background-color:".data ++ c.data :=
    String.data_append _ _
  have h1 : ("background-color:" ++ c) ≠ "font-weight:700" := by
    intro h
    have := congrArg String.data h
    rw [hdata] at this
    simp at this
  have h2 : ("background-color:" ++ c) ≠ "opacity:0.7" := by
    intro h
    have := congrArg String.data h
    rw [hdata] at this
    simp at this
  have h3 : ("background-color:" ++ c) ≠ "text-decoration:underline" := by
    intro h
    have := congrArg String.data h
    rw [hdata] at this
    simp at this
  have h4 : "color:".data.isPrefixOf ("background-color:" ++ c).data = false := by
    rw [hdata]
    cases hp : "color:".data.isPrefixOf ("background-color:".data ++ c.data) with
    | false => rfl
    | true =>
      exfalso
      have := isPrefixOf_eq_true_iff.mp hp
      rw [List.prefix_iff_eq_take] at this
      simp at this
  have h5 : "background-color:".data.isPrefixOf ("background-color:" ++ c).data = true := by
    rw [hdata, isPrefixOf_eq_true_iff]
    exact List.prefix_append _ _
  simp [styleRank, h1, h2, h3, h4, h5]

theorem styleRank_fw : styleRank "font-weight:700" = 0 := by decide

theorem styleRank_op : styleRank "opacity:0.7" = 1 := by decide

theorem styleRank_td : styleRank "text-decoration:underline" = 2 := by decide

theorem ansiStyles_sorted (st : AnsiState) :
    (ansiStyles st).Pairwise (fun x y => styleRank x < styleRank y) := by
  rcases st with ⟨b, d, u, fg, bg⟩
  cases b <;> cases d <;> cases u <;>
    rcases fg with _ | cf <;> rcases bg with _ | cb <;>
      simp [ansiStyles, List.pairwise_cons, styleRank_color, styleRank_bg,
        styleRank_fw, styleRank_op, styleRank_td]

/-- C8: the SGR parser treats an empty parameter list as the single code 0;
code 0 clears all attributes and closes any open span; 1/2/4 set
bold/dim/underline; 30–37 and 90–97 set the foreground and 40–47/100–107 the
background from the same fixed 16-entry palette; any other code is a no-op
(total function, no error); and a span's properties are emitted in the fixed
order font-weight, opacity, text-decoration, color, background-color. -/
theorem sgr_parser_spec :
    (parseSgrParams [] = [0]) ∧
    (∀ a : AnsiAcc, sgrStep a 0 =
      { st := ansiReset, spanOpen := false,
        out := a.out ++ (if a.spanOpen then ["</span>".data] else []) }) ∧
    (∀ a : AnsiAcc, sgrStep a 1 = { a with st := { a.st with bold := true } }) ∧
    (∀ a : AnsiAcc, sgrStep a 2 = { a with st := { a.st with dim := true } }) ∧
    (∀ a : AnsiAcc, sgrStep a 4 = { a with st := { a.st with underline := true } }) ∧
    (∀ (a : AnsiAcc) (c : Nat), (30 ≤ c ∧ c ≤ 37) ∨ (90 ≤ c ∧ c ≤ 97) →
      sgrStep a c = { a with st := { a.st with fg_color := ANSI_COLOR_MAP c } } ∧
      (ANSI_COLOR_MAP c).isSome = true) ∧
    (∀ (a : AnsiAcc) (c : Nat), (40 ≤ c ∧ c ≤ 47) ∨ (100 ≤ c ∧ c ≤ 107) →
      sgrStep a c = { a with st := { a.st with bg_color := ANSI_COLOR_MAP c } } ∧
      (ANSI_COLOR_MAP c).isSome = true) ∧
    (∀ c : Nat, (30 ≤ c ∧ c ≤ 37) ∨ (90 ≤ c ∧ c ≤ 97) →
      ANSI_COLOR_MAP (c + 10) = ANSI_COLOR_MAP c) ∧
    (∀ (a : AnsiAcc) (c : Nat), c ≠ 0 → c ≠ 1 → c ≠ 2 → c ≠ 4 →
      ¬ ((30 ≤ c ∧ c ≤ 37) ∨ (90 ≤ c ∧ c ≤ 97)) →
      ¬ ((40 ≤ c ∧ c ≤ 47) ∨ (100 ≤ c ∧ c ≤ 107)) →
      sgrStep a c = a) ∧
    (∀ st : AnsiState, (ansiStyles st).Pairwise (fun x y => styleRank x < styleRank y)) := by
  refine ⟨by decide, ?_, ?_, ?_, ?_, ?_, ?_, ?_, ?_, ansiStyles_sorted⟩
  · intro a
    simp [sgrStep]
  · intro a
    simp [sgrStep]
  · intro a
    simp [sgrStep]
  · intro a
    simp [sgrStep]
  · intro a c hc
    constructor
    · rcases hc with ⟨h1, h2⟩ | ⟨h1, h2⟩ <;>
        simp [sgrStep, show c ≠ 0 by omega, show c ≠ 1 by omega, show c ≠ 2 by omega,
          show c ≠ 4 by omega, h1, h2] <;>
        rw [if_pos ⟨h1, h2⟩]
    · rcases hc with ⟨h1, h2⟩ | ⟨h1, h2⟩ <;> interval_cases c <;> decide
  · intro a c hc
    constructor
    · rcases hc with ⟨h1, h2⟩ | ⟨h1, h2⟩
      · simp only [sgrStep]
        rw [if_neg (by omega : ¬ c = 0), if_neg (by omega : ¬ c = 1),
          if_neg (by omega : ¬ c = 2), if_neg (by omega : ¬ c = 4),
          if_neg (by omega : ¬ (30 ≤ c ∧ c ≤ 37)),
          if_neg (by omega : ¬ (90 ≤ c ∧ c ≤ 97)),
          if_pos (⟨h1, h2⟩ : 40 ≤ c ∧ c ≤ 47)]
      · simp only [sgrStep]
        rw [if_neg (by omega : ¬ c = 0), if_neg (by omega : ¬ c = 1),
          if_neg (by omega : ¬ c = 2), if_neg (by omega : ¬ c = 4),
          if_neg (by omega : ¬ (30 ≤ c ∧ c ≤ 37)),
          if_neg (by omega : ¬ (90 ≤ c ∧ c ≤ 97)),
          if_neg (by omega : ¬ (40 ≤ c ∧ c ≤ 47)),
          if_pos (⟨h1, h2⟩ : 100 ≤ c ∧ c ≤ 107)]
    · rcases hc with ⟨h1, h2⟩ | ⟨h1, h2⟩ <;> interval_cases c <;> decide
  · intro c hc
    rcases hc with ⟨h1, h2⟩ | ⟨h1, h2⟩ <;> interval_cases c <;> decide
  · intro a c h0 h1 h2 h4 hfg hbg
    simp [sgrStep, h0, h1, h2, h4, hfg, hbg,
      show ¬ (30 ≤ c ∧ c ≤ 37) by tauto, show ¬ (90 ≤ c ∧ c ≤ 97) by tauto,
      show ¬ (40 ≤ c ∧ c ≤ 47) by tauto, show ¬ (100 ≤ c ∧ c ≤ 107) by tauto]

theorem sgr_parser_spec_witness :
    sgrStep { st := ansiReset, spanOpen := false, out := [] } 31 =
      { st := { ansiReset with fg_color := ANSI_COLOR_MAP 31 }, spanOpen := false,
        out := [] } ∧
    sgrStep { st := ansiReset, spanOpen := false, out := [] } 3 =
      { st := ansiReset, spanOpen := false, out := [] } :=
  ⟨(sgr_parser_spec.2.2.2.2.2.1 { st := ansiReset, spanOpen := false, out := [] } 31
      (Or.inl (by decide))).1,
   sgr_parser_spec.2.2.2.2.2.2.2.2.1 { st := ansiReset, spanOpen := false, out := [] } 3
      (by decide) (by decide) (by decide) (by decide) (by decide) (by decide)⟩

/-! ## C6: the sticky cursor-control mode and its exit -/

theorem matchEscFull_some_head {s : Chars} {x : Chars × Char × Chars}
    (h : matchEscFull s = some x) : [escChar, '['].isPrefixOf s = true := by
  match s with
  | [] => simp [matchEscFull] at h
  | [c] => simp [matchEscFull] at h
  | c :: d :: rest =>
    simp only [matchEscFull] at h
    by_cases hcd : c = escChar ∧ d = '['
    · simp [List.isPrefixOf, hcd.1, hcd.2]
    · rw [if_neg hcd] at h; cases h

theorem containsSub_cons {p : Chars} {c : Char} {rest : Chars}
    (h : containsSub p rest = true) : containsSub p (c :: rest) = true := by
  rcases containsSub_iff_exists.mp h with ⟨i, hi⟩
  exact containsSub_iff_exists.mpr ⟨i + 1, by rwa [matchesAt_cons_succ]⟩

/-- Where no `ESC [` pair occurs, the scanner finds no escape sequences. -/
theorem escSeqFinalsF_nil {fuel : Nat} : ∀ {s : Chars},
    containsSub [escChar, '['] s = false → escSeqFinalsF fuel s = [] := by
  induction fuel with
  | zero => intro s _; rfl
  | succ f ih =>
    intro s h
    match s with
    | [] => rfl
    | c :: rest =>
      simp only [escSeqFinalsF]
      cases hm : matchEscFull (c :: rest) with
      | some x =>
        exfalso
        have hpre := matchEscFull_some_head hm
        have h2 : containsSub [escChar, '['] (c :: rest) = true :=
          containsSub_iff_exists.mpr ⟨0, by simpa [matchesAt] using hpre⟩
        rw [h] at h2; cases h2
      | none =>
        apply ih
        cases hc : containsSub [escChar, '['] rest with
        | false => rfl
        | true => rw [containsSub_cons hc] at h; cases h

/-- The claim's exit condition for sticky cursor-control mode: the call ends
with a line terminator, contains no non-`m` escape sequences, and no raw
carriage-return or backspace characters. -/
def exitsCursorMode (text : Chars) : Bool :=
  decide (text.getLast? = some '\n') && (escSeqFinals text).all (fun e => e = 'm') &&
  !(text.contains '\r' || text.contains bsChar)

theorem isEmpty_or_all (l : List Char) (p : Char → Bool) :
    (l.isEmpty || l.all p) = l.all p := by
  cases l <;> simp

/-- C6 (amended): once the last-chunk state is `ansi-cursor`, every print is
classified `ansi-cursor` until a call satisfies the exit condition; the
exiting call is classified `"stdout"` unconditionally — also when the caller
supplied `stderr`. -/
theorem sticky_cursor_mode_amended (text : Chars) (kt : String) (lastBase : Option String) :
    (exitsCursorMode text = false →
      classify_chunk text kt (some "ansi-cursor") lastBase =
        ("ansi-cursor", some "ansi-cursor", lastBase)) ∧
    (exitsCursorMode text = true →
      classify_chunk text kt (some "ansi-cursor") lastBase = ("stdout", none, none)) := by
  have hfin : (if containsSub [escChar, '['] text = true then escSeqFinals text else []) =
      escSeqFinals text := by
    by_cases hin : containsSub [escChar, '['] text = true
    · rw [if_pos hin]
    · rw [if_neg hin]
      exact (escSeqFinalsF_nil (Bool.eq_false_iff.mpr hin)).symm
  have hexit : (decide True &&
      decide (text.getLast? = some '\n') &&
      (!(!(if containsSub [escChar, '['] text = true then escSeqFinals text
           else []).isEmpty) ||
        (if containsSub [escChar, '['] text = true then escSeqFinals text
         else []).all (fun e => e = 'm')) &&
      !(text.contains '\r' || text.contains bsChar)) = exitsCursorMode text := by
    rw [hfin]
    simp only [exitsCursorMode, decide_True, Bool.true_and, Bool.not_not]
    rw [isEmpty_or_all]
  constructor
  · intro hex
    simp only [classify_chunk]
    rw [hexit, hex]
    simp
  · intro hex
    simp only [classify_chunk]
    rw [hexit, hex]
    simp

/-- C6 (counterexample): the exit call `print("done\n", stderr)` from sticky
cursor mode is classified `stdout`, not the caller-supplied `stderr`. -/
theorem sticky_exit_stream_counterexample :
    classify_chunk "done\n".data "stderr" (some "ansi-cursor") (some "ansi-cursor") =
      ("stdout", none, none) ∧ ("stdout" : String) ≠ "stderr" := by decide

theorem sticky_cursor_mode_amended_witness :
    classify_chunk "done\n".data "stderr" (some "ansi-cursor") (some "ansi-cursor") =
      ("stdout", none, none) :=
  (sticky_cursor_mode_amended "done\n".data "stderr" (some "ansi-cursor")).2 (by decide)

/-! ## C10: degraded fallback when the last block cannot be parsed -/

/-- C10: when the carriage-return path has located a last block (window hit at
`idx`) whose text contains no `<pre>…</pre>` region, `_apply_carriage_return`
neither raises nor discards the input: it appends the degraded collapsible
`<details>` block holding the HTML-escaped text at the end of the document
body, immediately before the marker and footer tail. -/
theorem cr_unparseable_fallback (st : LogState) (head t text : Chars)
    (chunkType : String) (idx : Nat)
    (hf : st.file = head ++ FOOTER_MARKER ++ t)
    (hocc : occCount FOOTER_MARKER st.file = 1)
    (hwin : rfindIdx
      (("<div class=\"" ++ (if chunkType = "stderr" then "stderr" else "stdout") ++
        "\"").data)
      ((st.file.drop (head.length - min head.length (512 * 1024))).take
        (min head.length (512 * 1024))) = some idx)
    (hpre : preExtract
      ((st.file.drop (head.length - min head.length (512 * 1024) + idx)).take
        (head.length - (head.length - min head.length (512 * 1024) + idx))) = none) :
    apply_carriage_return st text chunkType =
      some { st with
        file := head ++ ("<details><summary>ANSI cursor</summary><pre>".data ++
          escape_html text ++ "</pre></details>\n".data) ++ FOOTER_MARKER ++ t,
        markerCache := some (head.length +
          ("<details><summary>ANSI cursor</summary><pre>".data ++
            escape_html text ++ "</pre></details>\n".data).length) } := by
  have hfm := find_marker_eq st.markerCache hf hocc
  simp only [apply_carriage_return, find_last_chunk_start, hfm, hwin]
  have hfm2 := find_marker_eq (some head.length) hf hocc
  simp only [hfm2, hpre]
  have hfm3 := find_marker_eq (none : Option Nat) hf hocc
  simp only [hfm3]
  rw [hf, file_take_head, file_drop_tail]
  simp [List.append_assoc]

def crWitnessHead : Chars := "<html><body>\n<div class=\"stdout\">junk".data

def crWitnessDet : Chars :=
  "<details><summary>ANSI cursor</summary><pre>".data ++
    escape_html "a\rb".data ++ "</pre></details>\n".data

theorem cr_unparseable_fallback_witness :
    apply_carriage_return
      { file := crWitnessHead ++ FOOTER_MARKER ++ "</body>".data,
        markerCache := none, lastChunkType := some "stdout",
        lastChunkBase := some "stdout", ansi := ansiReset, currentSectionId := none }
      "a\rb".data "stdout" =
    some
      { file := crWitnessHead ++ crWitnessDet ++ FOOTER_MARKER ++ "</body>".data,
        markerCache := some (crWitnessHead.length + crWitnessDet.length),
        lastChunkType := some "stdout", lastChunkBase := some "stdout",
        ansi := ansiReset, currentSectionId := none } :=
  cr_unparseable_fallback _ crWitnessHead "</body>".data "a\rb".data "stdout" 13
    rfl (by decide) (by decide) (by decide)

/-! ## C7: the closer-window search of `_insert_before_closer` -/

theorem matchesAt_head {c : Char} {p s : Chars} {i : Nat}
    (h : matchesAt (c :: p) s i = true) : s.get? i = some c := by
  simp only [matchesAt] at h
  rw [isPrefixOf_eq_true_iff] at h
  rcases h with ⟨tail, htail⟩
  have h0 : (s.drop i).get? 0 = some c := by rw [← htail]; rfl
  rw [List.get?_drop] at h0
  simpa using h0

theorem closer_ne_nil : CHUNK_CLOSER ≠ [] := by decide

theorem closer_ltFree : ltFree CHUNK_CLOSER = true := by decide

theorem closer_head_lt : ∃ p, CHUNK_CLOSER = '<' :: p := ⟨"/pre></div>\n".data, by decide⟩


/-- When the 512 KiB window before the marker holds the closer, the splice
happens before its last occurrence in the window. -/
theorem insert_before_closer_window_hit (st : LogState) (head t inner : Chars) (idx : Nat)
    (hf : st.file = head ++ FOOTER_MARKER ++ t)
    (hocc : occCount FOOTER_MARKER st.file = 1)
    (hlh : ltFree head = true) (hli : ltFree inner = true)
    (htl : occCount FOOTER_MARKER (FOOTER_MARKER ++ t) = 1)
    (hwin : rfindIdx CHUNK_CLOSER
        ((st.file.drop (head.length - min head.length (512 * 1024))).take
          (min head.length (512 * 1024))) = some idx) :
    (insert_before_closer st inner).map LogState.file =
      some (head.take (head.length - min head.length (512 * 1024) + idx) ++
        inner ++ CHUNK_CLOSER ++ FOOTER_MARKER ++ t) := by
  have hfm := find_marker_eq st.markerCache hf hocc
  have hwm := rfindIdx_some_matches hwin
  have hglobal : matchesAt CHUNK_CLOSER st.file
      (head.length - min head.length (512 * 1024) + idx) = true :=
    matchesAt_of_window hwm
  have hlen : idx + CHUNK_CLOSER.length ≤
      ((st.file.drop (head.length - min head.length (512 * 1024))).take
        (min head.length (512 * 1024))).length :=
    matchesAt_add_le_length closer_ne_nil hwm
  have hwinlen : ((st.file.drop (head.length - min head.length (512 * 1024))).take
      (min head.length (512 * 1024))).length ≤ min head.length (512 * 1024) := by
    rw [List.length_take]
    omega
  have hminle : min head.length (512 * 1024) ≤ head.length := Nat.min_le_left _ _
  have hcl : CHUNK_CLOSER.length = 13 := by decide
  have hpcle : head.length - min head.length (512 * 1024) + idx + CHUNK_CLOSER.length ≤
      head.length := by omega
  have htake : st.file.take (head.length - min head.length (512 * 1024) + idx) =
      head.take (head.length - min head.length (512 * 1024) + idx) := by
    have h1 : st.file.take (head.length - min head.length (512 * 1024) + idx) =
        (st.file.take head.length).take
          (head.length - min head.length (512 * 1024) + idx) := by
      rw [List.take_take]
      have h2 : min (head.length - min head.length (512 * 1024) + idx) head.length =
          head.length - min head.length (512 * 1024) + idx := by omega
      rw [h2]
    rw [h1, hf, file_take_head]
  have hget : head.get? (head.length - min head.length (512 * 1024) + idx) =
      some '<' := by
    rcases closer_head_lt with ⟨p, hp⟩
    rw [hp] at hglobal
    have h3 := matchesAt_head hglobal
    rw [hf] at h3
    rw [← h3]
    rw [List.append_assoc]
    exact (List.get?_append (by omega)).symm
  have hltnew : ltFree ((head.take (head.length - min head.length (512 * 1024) + idx) ++
      inner) ++ CHUNK_CLOSER) = true :=
    ltFree_append (ltFree_append (ltFree_take_of_lt_at hlh hget) hli) closer_ltFree
  simp only [insert_before_closer, hfm, find_pos_of_last]
  rw [hwin]
  have hnf : st.file.take (head.length - min head.length (512 * 1024) + idx) ++
      (inner ++ CHUNK_CLOSER ++ FOOTER_MARKER ++
        st.file.drop (head.length + FOOTER_MARKER.length)) =
      ((head.take (head.length - min head.length (512 * 1024) + idx) ++ inner) ++
        CHUNK_CLOSER) ++ FOOTER_MARKER ++ t := by
    rw [htake, hf, file_drop_tail]
    simp [List.append_assoc]
  simp only [hnf]
  have hoccnew : occCount FOOTER_MARKER
      (((head.take (head.length - min head.length (512 * 1024) + idx) ++ inner) ++
        CHUNK_CLOSER) ++ FOOTER_MARKER ++ t) = 1 :=
    occCount_marker_once hltnew htl
  have hfm2 := find_marker_eq (some head.length) rfl hoccnew
  simp only [hfm2, Option.map_some']

/-- When the window holds no closer, the bytes are spliced directly before
the marker — there is no whole-file fallback scan. -/
theorem insert_before_closer_window_miss (st : LogState) (head t inner : Chars)
    (hf : st.file = head ++ FOOTER_MARKER ++ t)
    (hocc : occCount FOOTER_MARKER st.file = 1)
    (hwin : rfindIdx CHUNK_CLOSER
        ((st.file.drop (head.length - min head.length (512 * 1024))).take
          (min head.length (512 * 1024))) = none) :
    insert_before_closer st inner =
      some { st with
        file := head ++ inner ++ FOOTER_MARKER ++ t,
        markerCache := some (head.length + inner.length) } := by
  have hfm := find_marker_eq st.markerCache hf hocc
  simp only [insert_before_closer, hfm, find_pos_of_last]
  rw [hwin]
  have hfm2 := find_marker_eq (none : Option Nat) hf hocc
  simp only [hfm2]
  rw [hf, file_take_head, file_drop_tail]
  simp [List.append_assoc]

/-- C7 (amended): locating the splice point scans backward only within the
512 KiB window before the marker.  If the window holds the closer, the bytes
are spliced immediately before its last occurrence there; if the window holds
no closer, the engine does NOT fall back to a whole-file scan — it splices
the bytes directly before the marker instead. -/
theorem insert_before_closer_amended (st : LogState) (head t inner : Chars)
    (hf : st.file = head ++ FOOTER_MARKER ++ t)
    (hocc : occCount FOOTER_MARKER st.file = 1)
    (hlh : ltFree head = true) (hli : ltFree inner = true)
    (htl : occCount FOOTER_MARKER (FOOTER_MARKER ++ t) = 1) :
    (∀ idx, rfindIdx CHUNK_CLOSER
        ((st.file.drop (head.length - min head.length (512 * 1024))).take
          (min head.length (512 * 1024))) = some idx →
      (insert_before_closer st inner).map LogState.file =
        some (head.take (head.length - min head.length (512 * 1024) + idx) ++
          inner ++ CHUNK_CLOSER ++ FOOTER_MARKER ++ t)) ∧
    (rfindIdx CHUNK_CLOSER
        ((st.file.drop (head.length - min head.length (512 * 1024))).take
          (min head.length (512 * 1024))) = none →
      insert_before_closer st inner =
        some { st with
          file := head ++ inner ++ FOOTER_MARKER ++ t,
          markerCache := some (head.length + inner.length) }) :=
  ⟨fun idx hwin => insert_before_closer_window_hit st head t inner idx hf hocc hlh hli htl hwin,
   fun hwin => insert_before_closer_window_miss st head t inner hf hocc hwin⟩

def c7head : Chars := specTemplateHead ++ "<div class=\"stdout\"><pre>a</pre></div>\n".data

def c7state : LogState :=
  { file := c7head ++ FOOTER_MARKER ++ specTemplateTail, markerCache := some 3,
    lastChunkType := some "stdout", lastChunkBase := some "stdout",
    ansi := ansiReset, currentSectionId := none }

theorem insert_before_closer_amended_witness :
    (insert_before_closer c7state "b".data).map LogState.file =
      some (c7head.take (c7head.length - min c7head.length (512 * 1024) + 39) ++
        "b".data ++ CHUNK_CLOSER ++ FOOTER_MARKER ++ specTemplateTail) :=
  (insert_before_closer_amended c7state c7head specTemplateTail "b".data rfl
    (by decide) (by decide) (by decide) (by decide)).1 39 (by decide)

/-- The 512 KiB of filler that pushes the closer out of the search window. -/
def aRun : Chars := List.replicate (512 * 1024) 'a'

def bigHead : Chars := CHUNK_CLOSER ++ aRun

/-- A session whose only block closer sits more than 512 KiB before the
marker. -/
def bigState : LogState :=
  { file := bigHead ++ FOOTER_MARKER ++ "</body>".data,
    markerCache := some bigHead.length, lastChunkType := some "stdout",
    lastChunkBase := some "stdout", ansi := ansiReset, currentSectionId := none }

theorem aRun_no_lt : '<' ∉ aRun := by
  intro h
  have := List.eq_of_mem_replicate h
  cases this

theorem closer_not_match_replicate (i : Nat) :
    matchesAt CHUNK_CLOSER aRun i = false := by
  cases hm : matchesAt CHUNK_CLOSER aRun i with
  | false => rfl
  | true =>
    exfalso
    rcases closer_head_lt with ⟨p, hp⟩
    rw [hp] at hm
    have h1 := matchesAt_head hm
    have h2 : '<' ∈ aRun := List.get?_mem h1
    exact aRun_no_lt h2

theorem bigHead_ltFree : ltFree bigHead = true :=
  ltFree_append closer_ltFree (ltFree_of_no_lt aRun_no_lt)

theorem bigState_occ : occCount FOOTER_MARKER bigState.file = 1 :=
  occCount_marker_once bigHead_ltFree (by decide)

theorem aRun_length : aRun.length = 512 * 1024 := List.length_replicate _ _

theorem closer_length : CHUNK_CLOSER.length = 13 := by decide

theorem bigHead_length : bigHead.length = 13 + 512 * 1024 := by
  show (CHUNK_CLOSER ++ aRun).length = 13 + 512 * 1024
  rw [List.length_append, closer_length, aRun_length]

/-- C7 (counterexample): with the closer present only at position 0 — more
than 512 KiB before the marker — `_insert_before_closer` does not fall back
to a whole-file scan: it splices the new bytes before the marker, leaving the
existing block untouched, instead of splicing before the closer as the claim
asserts. -/
theorem closer_window_no_fallback_counterexample :
    (insert_before_closer bigState "b".data).map LogState.file =
      some (bigHead ++ "b".data ++ FOOTER_MARKER ++ "</body>".data) ∧
    matchesAt CHUNK_CLOSER bigState.file 0 = true ∧
    bigHead ++ "b".data ++ FOOTER_MARKER ++ "</body>".data ≠
      "b".data ++ CHUNK_CLOSER ++ aRun ++ FOOTER_MARKER ++ "</body>".data := by
  refine ⟨?_, ?_, ?_⟩
  · have hdrop : bigState.file.drop (bigHead.length - min bigHead.length (512 * 1024)) =
        aRun ++ (FOOTER_MARKER ++ "</body>".data) := by
      have h1 : bigHead.length - min bigHead.length (512 * 1024) = CHUNK_CLOSER.length := by
        rw [bigHead_length, closer_length]
        omega
      rw [h1]
      show ((CHUNK_CLOSER ++ aRun) ++ FOOTER_MARKER ++ "</body>".data).drop
        CHUNK_CLOSER.length = _
      rw [List.append_assoc, List.append_assoc, List.drop_left]
    have htake : (aRun ++ (FOOTER_MARKER ++ "</body>".data)).take
        (min bigHead.length (512 * 1024)) = aRun := by
      have h2 : min bigHead.length (512 * 1024) = aRun.length := by
        rw [bigHead_length, aRun_length]
        omega
      rw [h2, List.take_left]
    have hwin : rfindIdx CHUNK_CLOSER
        ((bigState.file.drop (bigHead.length - min bigHead.length (512 * 1024))).take
          (min bigHead.length (512 * 1024))) = none := by
      rw [hdrop, htake]
      exact rfindIdx_none_of_no_match closer_not_match_replicate
    rw [insert_before_closer_window_miss bigState bigHead "</body>".data "b".data rfl
      bigState_occ hwin]
    rfl
  · show CHUNK_CLOSER.isPrefixOf (bigState.file.drop 0) = true
    rw [List.drop_zero]
    rw [isPrefixOf_eq_true_iff]
    show CHUNK_CLOSER <+: (CHUNK_CLOSER ++ aRun) ++ FOOTER_MARKER ++ "</body>".data
    rw [List.append_assoc, List.append_assoc]
    exact List.prefix_append _ _
  · intro h
    have h1 : (bigHead ++ "b".data ++ FOOTER_MARKER ++ "</body>".data).head? =
        some '<' := rfl
    have h2 : ("b".data ++ CHUNK_CLOSER ++ aRun ++ FOOTER_MARKER ++
        "</body>".data).head? = some 'b' := rfl
    rw [h] at h1
    rw [h1] at h2
    cases h2

theorem classify_chunk_base_none (text : Chars) (ct0 : String) (lt : Option String) :
    (classify_chunk text ct0 lt none).2.2 = none := by
  simp only [classify_chunk]
  repeat' split
  all_goals rfl

theorem classify_chunk_kind (text : Chars) (ct0 : String) (lt lb : Option String)
    (h : ct0 = "stdout" ∨ ct0 = "stderr") :
    (classify_chunk text ct0 lt lb).1 = "stdout" ∨
      (classify_chunk text ct0 lt lb).1 = "stderr" ∨
      (classify_chunk text ct0 lt lb).1 = "ansi-cursor" := by
  simp only [classify_chunk]
  repeat' split
  all_goals try exact Or.inl rfl
  all_goals try exact Or.inr (Or.inr rfl)
  all_goals rcases h with h | h
  all_goals rw [h]
  all_goals try exact Or.inl rfl
  all_goals exact Or.inr (Or.inl rfl)

theorem chunk_wrapper_form_amended (st : LogState) (head t data : Chars)
    (ct0 : String) (oracle : Nat → String × String)
    (hf : st.file = head ++ FOOTER_MARKER ++ t)
    (hocc : occCount FOOTER_MARKER st.file = 1)
    (hbase : st.lastChunkBase = none)
    (hguard : autoAnchorGuard data = false)
    (hct : ct0 = "stdout" ∨ ct0 = "stderr") :
    ∃ ct, (ct = "stdout" ∨ ct = "stderr" ∨ ct = "ansi-cursor") ∧
      (print_op st data ct0 oracle).map LogState.file =
        some (head ++ (("<div class=\"" ++ ct ++ "\"><pre>").data ++
          (compute_escaped st.ansi data ct).2 ++ "</pre></div>\n".data) ++
          FOOTER_MARKER ++ t) := by
  refine ⟨(classify_chunk data ct0 st.lastChunkType st.lastChunkBase).1,
    classify_chunk_kind data ct0 st.lastChunkType st.lastChunkBase hct, ?_⟩
  have hkind := classify_chunk_kind data ct0 st.lastChunkType st.lastChunkBase hct
  have hcb : (classify_chunk data ct0 st.lastChunkType st.lastChunkBase).2.2 = none := by
    rw [hbase]
    exact classify_chunk_base_none data ct0 st.lastChunkType
  simp only [print_op]
  rw [if_neg (fun hc => by rw [hguard] at hc; exact Bool.noConfusion hc.2)]
  dsimp only
  rw [if_neg (fun hc => by have h2 := hc.2.2; rw [hcb] at h2; exact Option.noConfusion h2)]
  rw [if_neg (fun hc => by have h2 := hc.2; rw [hcb] at h2; exact Option.noConfusion h2)]
  rw [@insert_bytes_eq
    { file := st.file, markerCache := st.markerCache,
      lastChunkType := (classify_chunk data ct0 st.lastChunkType st.lastChunkBase).2.1,
      lastChunkBase := (classify_chunk data ct0 st.lastChunkType st.lastChunkBase).2.2,
      ansi := (compute_escaped st.ansi data
        (classify_chunk data ct0 st.lastChunkType st.lastChunkBase).1).1,
      currentSectionId := st.currentSectionId } head t hf hocc]
  dsimp only
  rw [if_pos hkind]
  simp [List.append_assoc]

theorem chunk_wrapper_form_amended_witness :
    ∃ ct, (ct = "stdout" ∨ ct = "stderr" ∨ ct = "ansi-cursor") ∧
      (print_op freshState "hi".data "stdout" noAnchorOracle).map LogState.file =
        some (specTemplateHead ++ (("<div class=\"" ++ ct ++ "\"><pre>").data ++
          (compute_escaped freshState.ansi "hi".data ct).2 ++ "</pre></div>\n".data) ++
          FOOTER_MARKER ++ specTemplateTail) :=
  chunk_wrapper_form_amended freshState specTemplateHead specTemplateTail "hi".data
    "stdout" noAnchorOracle rfl (by decide) rfl (by decide) (Or.inl rfl)

/-! ## C1: the marker-uniqueness invariant

The `ltFree` discipline of the head (every `<` opens a plausible tag) rules
out assembling a copy of the marker, whose second byte is `!` followed by a
non-letter.  The following development shows every byte string the logger
emits is `ltFree` provided the run's external inputs respect the HTML
conventions (`argsOK` below), which yields marker uniqueness after every
public operation. -/

/-- No `<` byte in a string-valued field. -/
def noLtStr (s : String) : Bool := decide ('<' ∉ s.data)

def noLtOpt : Option String → Bool
  | none => true
  | some s => noLtStr s

theorem noLtStr_mem {s : String} (h : noLtStr s = true) : '<' ∉ s.data :=
  of_decide_eq_true h

/-- The well-formedness of the persistent ANSI style state: the stored color
values hold no `<`. -/
def ansiOK (a : AnsiState) : Bool := noLtOpt a.fg_color && noLtOpt a.bg_color

theorem ansi_color_map_ok (code : Nat) (hc : code ≤ 107) :
    noLtOpt (ANSI_COLOR_MAP code) = true := by
  interval_cases code <;> rfl

theorem mem_ite_singleton {α : Type} {s x : α} {c : Prop} [Decidable c]
    (h : s ∈ (if c then [x] else [])) : s = x := by
  by_cases hc : c
  · rw [if_pos hc] at h
    exact List.mem_singleton.mp h
  · rw [if_neg hc] at h
    exact absurd h (List.not_mem_nil s)

theorem ansiStyles_no_lt {a : AnsiState} (h : ansiOK a = true) :
    ∀ s ∈ ansiStyles a, '<' ∉ s.data := by
  simp only [ansiOK, Bool.and_eq_true] at h
  intro s hs
  simp only [ansiStyles] at hs
  rcases List.mem_append.mp hs with hs | hs
  · rcases List.mem_append.mp hs with hs | hs
    · rcases List.mem_append.mp hs with hs | hs
      · rcases List.mem_append.mp hs with hs | hs
        · rw [mem_ite_singleton hs]
          decide
        · rw [mem_ite_singleton hs]
          decide
      · rw [mem_ite_singleton hs]
        decide
    · cases hfgc : a.fg_color with
      | none =>
        rw [hfgc] at hs
        exact absurd hs (List.not_mem_nil s)
      | some c =>
        rw [hfgc] at hs
        rw [List.mem_singleton.mp hs]
        rw [String.data_append]
        simp only [List.mem_append, not_or]
        refine ⟨by decide, ?_⟩
        have h1 := h.1
        rw [hfgc] at h1
        exact noLtStr_mem h1
  · cases hbgc : a.bg_color with
    | none =>
      rw [hbgc] at hs
      exact absurd hs (List.not_mem_nil s)
    | some c =>
      rw [hbgc] at hs
      rw [List.mem_singleton.mp hs]
      rw [String.data_append]
      simp only [List.mem_append, not_or]
      refine ⟨by decide, ?_⟩
      have h1 := h.2
      rw [hbgc] at h1
      exact noLtStr_mem h1

theorem intercalate_go_no_lt (s : String) (l : List String) :
    ∀ acc : String, '<' ∉ acc.data → '<' ∉ s.data → (∀ x ∈ l, '<' ∉ x.data) →
      '<' ∉ (String.intercalate.go acc s l).data := by
  induction l with
  | nil =>
    intro acc hacc _ _
    exact hacc
  | cons a as ih =>
    intro acc hacc hs hl
    simp only [String.intercalate.go]
    refine ih (acc ++ s ++ a) ?_ hs (fun x hx => hl x (List.mem_cons_of_mem a hx))
    rw [String.data_append, String.data_append]
    simp only [List.mem_append, not_or]
    exact ⟨⟨hacc, hs⟩, hl a (List.mem_cons_self a as)⟩

theorem intercalate_no_lt {l : List String} (h : ∀ x ∈ l, '<' ∉ x.data) :
    '<' ∉ (String.intercalate ";" l).data := by
  cases l with
  | nil => simp [String.intercalate]
  | cons a as =>
    simp only [String.intercalate]
    exact intercalate_go_no_lt ";" as a (h a (List.mem_cons_self a as)) (by decide)
      (fun x hx => h x (List.mem_cons_of_mem a hx))

theorem ltFree_ansiSpanTag {a : AnsiState} (h : ansiOK a = true) :
    ltFree (ansiSpanTag a) = true := by
  simp only [ansiSpanTag]
  rw [String.data_append, String.data_append]
  refine ltFree_append (ltFree_append (by decide) ?_) (by decide)
  exact ltFree_of_no_lt (intercalate_no_lt (ansiStyles_no_lt h))

/-- Invariant of the `_ansi_to_html_stateful` loop accumulator. -/
def AccOK (a : AnsiAcc) : Prop :=
  ansiOK a.st = true ∧ ∀ p ∈ a.out, ltFree p = true

theorem sgrStep_ok {a : AnsiAcc} (h : AccOK a) (code : Nat) : AccOK (sgrStep a code) := by
  obtain ⟨hst, hout⟩ := h
  simp only [ansiOK, Bool.and_eq_true] at hst
  simp only [sgrStep]
  split
  · refine ⟨rfl, ?_⟩
    intro p hp
    rcases List.mem_append.mp hp with hp | hp
    · exact hout p hp
    · rw [mem_ite_singleton hp]
      decide
  · split
    · exact ⟨by simp only [ansiOK, Bool.and_eq_true]; exact hst, hout⟩
    · split
      · exact ⟨by simp only [ansiOK, Bool.and_eq_true]; exact hst, hout⟩
      · split
        · exact ⟨by simp only [ansiOK, Bool.and_eq_true]; exact hst, hout⟩
        · split
          · refine ⟨?_, hout⟩
            simp only [ansiOK, Bool.and_eq_true]
            exact ⟨ansi_color_map_ok code (by omega), hst.2⟩
          · split
            · refine ⟨?_, hout⟩
              simp only [ansiOK, Bool.and_eq_true]
              exact ⟨ansi_color_map_ok code (by omega), hst.2⟩
            · split
              · refine ⟨?_, hout⟩
                simp only [ansiOK, Bool.and_eq_true]
                exact ⟨hst.1, ansi_color_map_ok code (by omega)⟩
              · split
                · refine ⟨?_, hout⟩
                  simp only [ansiOK, Bool.and_eq_true]
                  exact ⟨hst.1, ansi_color_map_ok code (by omega)⟩
                · exact ⟨by simp only [ansiOK, Bool.and_eq_true]; exact hst, hout⟩

theorem sgrFold_ok {l : List Nat} : ∀ {a : AnsiAcc}, AccOK a → AccOK (l.foldl sgrStep a) := by
  induction l with
  | nil => intro a h; exact h
  | cons c cs ih => intro a h; exact ih (sgrStep_ok h c)

theorem sgrFinish_ok {a : AnsiAcc} (h : AccOK a) : AccOK (sgrFinish a) := by
  obtain ⟨hst, hout⟩ := h
  have hout1 : ∀ p ∈ a.out ++ (if a.spanOpen = true then ["</span>".data] else []),
      ltFree p = true := by
    intro p hp
    rcases List.mem_append.mp hp with hp | hp
    · exact hout p hp
    · rw [mem_ite_singleton hp]
      decide
  simp only [sgrFinish]
  split
  · refine ⟨hst, ?_⟩
    intro p hp
    rcases List.mem_append.mp hp with hp | hp
    · exact hout1 p hp
    · rw [List.mem_singleton.mp hp]
      exact ltFree_ansiSpanTag hst
  · exact ⟨hst, hout1⟩

theorem ansiEmitTok_ok {a : AnsiAcc} (h : AccOK a) (tok : AnsiTok) :
    AccOK (ansiEmitTok a tok) := by
  cases tok with
  | txt s =>
    obtain ⟨hst, hout⟩ := h
    refine ⟨hst, ?_⟩
    intro p hp
    rcases List.mem_append.mp hp with hp | hp
    · exact hout p hp
    · rw [List.mem_singleton.mp hp]
      exact ltFree_escape_html s
  | esc params => exact sgrFinish_ok (sgrFold_ok h)

theorem emitFold_ok (toks : List AnsiTok) : ∀ {a : AnsiAcc}, AccOK a →
    AccOK (toks.foldl ansiEmitTok a) := by
  induction toks with
  | nil => intro a h; exact h
  | cons tk tks ih => intro a h; exact ih (ansiEmitTok_ok h tk)

theorem flatten_ltFree {l : List Chars} (h : ∀ p ∈ l, ltFree p = true) :
    ltFree l.flatten = true := by
  induction l with
  | nil => rfl
  | cons p ps ih =>
    rw [List.flatten_cons]
    exact ltFree_append (h p (List.mem_cons_self p ps))
      (ih (fun q hq => h q (List.mem_cons_of_mem p hq)))

theorem ansi_to_html_ok {st : AnsiState} (h : ansiOK st = true) (text : Chars) :
    ansiOK (ansi_to_html_stateful st text).1 = true ∧
      ltFree (ansi_to_html_stateful st text).2 = true := by
  have hinit : AccOK
      { st := st, spanOpen := ansiActive st,
        out := if ansiActive st = true then
                 (if ansiStyles st ≠ [] then [ansiSpanTag st] else [])
               else [] } := by
    refine ⟨h, ?_⟩
    intro p hp
    simp only at hp
    split at hp
    · rename_i hact
      have hp2 := hp
      rw [mem_ite_singleton hp2]
      exact ltFree_ansiSpanTag h
    · exact absurd hp (List.not_mem_nil p)
  have hfin := emitFold_ok (splitEscM text) hinit
  simp only [ansi_to_html_stateful]
  exact ⟨hfin.1, flatten_ltFree hfin.2⟩

theorem close_ansi_spans_ok {a : AnsiState} (h : ansiOK a = true) :
    ansiOK (close_ansi_spans a).1 = true ∧ ltFree (close_ansi_spans a).2 = true := by
  simp only [close_ansi_spans]
  split
  · exact ⟨rfl, rfl⟩
  · exact ⟨h, rfl⟩

theorem compute_escaped_ok {a : AnsiState} (h : ansiOK a = true) (text : Chars)
    (ct : String) :
    ansiOK (compute_escaped a text ct).1 = true ∧
      ltFree (compute_escaped a text ct).2 = true := by
  simp only [compute_escaped]
  split
  · split
    · exact ansi_to_html_ok h _
    · exact ansi_to_html_ok h _
  · exact ⟨h, ltFree_escape_html text⟩

theorem mem_of_mem_dropWhile {α : Type} {p : α → Bool} {l : List α} {x : α}
    (h : x ∈ l.dropWhile p) : x ∈ l :=
  (List.dropWhile_sublist p).mem h

theorem mem_subBadRunsF {c : Char} : ∀ {fuel : Nat} {s : Chars},
    c ∈ subBadRunsF fuel s → isSlugChar c = true ∨ c = '-' := by
  intro fuel
  induction fuel with
  | zero => intro s h; exact absurd h (List.not_mem_nil c)
  | succ n ih =>
    intro s h
    match s with
    | [] => exact absurd h (List.not_mem_nil c)
    | d :: rest =>
      simp only [subBadRunsF] at h
      split at h
      · rcases List.mem_cons.mp h with h | h
        · subst h
          exact Or.inl (by assumption)
        · exact ih h
      · rcases List.mem_cons.mp h with h | h
        · exact Or.inr h
        · exact ih h

theorem mem_collapseDashesF {c : Char} : ∀ {fuel : Nat} {s : Chars},
    c ∈ collapseDashesF fuel s → c ∈ s ∨ c = '-' := by
  intro fuel
  induction fuel with
  | zero => intro s h; exact absurd h (List.not_mem_nil c)
  | succ n ih =>
    intro s h
    match s with
    | [] => exact absurd h (List.not_mem_nil c)
    | d :: rest =>
      simp only [collapseDashesF] at h
      split at h
      · rcases List.mem_cons.mp h with h | h
        · exact Or.inr h
        · rcases ih h with h2 | h2
          · exact Or.inl (List.mem_cons_of_mem d (mem_of_mem_dropWhile h2))
          · exact Or.inr h2
      · rcases List.mem_cons.mp h with h | h
        · exact Or.inl (h ▸ List.mem_cons_self d rest)
        · rcases ih h with h2 | h2
          · exact Or.inl (List.mem_cons_of_mem d h2)
          · exact Or.inr h2

theorem mem_pyStripChar {x c : Char} {s : Chars} (h : c ∈ pyStripChar x s) : c ∈ s := by
  simp only [pyStripChar, dropTrailingWhile] at h
  rw [List.mem_reverse] at h
  have h2 := mem_of_mem_dropWhile h
  rw [List.mem_reverse] at h2
  exact mem_of_mem_dropWhile h2

theorem slugify_no_lt (s : Chars) : '<' ∉ slugify s := by
  simp only [slugify]
  split
  · decide
  · intro h
    have h2 := mem_pyStripChar h
    rcases mem_collapseDashesF h2 with h3 | h3
    · rcases mem_subBadRunsF h3 with h4 | h4
      · exact absurd h4 (by decide)
      · exact absurd h4 (by decide)
    · exact absurd h3 (by decide)

theorem ltFree_slugify (s : Chars) : ltFree (slugify s) = true :=
  ltFree_of_no_lt (slugify_no_lt s)

/-- `ltFree` of a `'\n'`-joined list of `ltFree` pieces. -/
theorem intersperse_nl_ltFree {l : List Chars} (h : ∀ p ∈ l, ltFree p = true) :
    ∀ p ∈ List.intersperse ['\n'] l, ltFree p = true := by
  induction l with
  | nil => intro p hp; exact absurd hp (List.not_mem_nil p)
  | cons a as ih =>
    intro p hp
    match as, hp with
    | [], hp => rw [List.mem_singleton.mp hp]; exact h a (List.mem_cons_self a [])
    | b :: bs, hp =>
      rw [List.intersperse_cons_cons] at hp
      rcases List.mem_cons.mp hp with hp | hp
      · rw [hp]
        exact h a (List.mem_cons_self a (b :: bs))
      · rcases List.mem_cons.mp hp with hp | hp
        · rw [hp]
          decide
        · exact ih (fun q hq => h q (List.mem_cons_of_mem a hq)) p hp

theorem intercalate_nl_ltFree {l : List Chars} (h : ∀ p ∈ l, ltFree p = true) :
    ltFree (List.intercalate ['\n'] l) = true := by
  simp only [List.intercalate]
  exact flatten_ltFree (intersperse_nl_ltFree h)

theorem ltOpenerOK_takeWhile_nl {r : Chars} (h : ltOpenerOK r = true) :
    ltOpenerOK (r.takeWhile (fun c => !(c = '\n'))) = true := by
  match r with
  | [] => exact absurd h (by decide)
  | d :: r2 =>
    simp only [ltOpenerOK] at h
    split at h
    · rename_i hd
      have hdnl : (fun c => !(decide (c = '\n'))) d = true := by
        rcases Bool.or_eq_true_iff.mp hd with hd1 | hd1
        · rw [decide_eq_true_iff] at hd1
          subst hd1
          decide
        · simp only [Bool.not_eq_true', decide_eq_false_iff_not]
          intro hc
          subst hc
          exact absurd hd1 (by decide)
      rw [List.takeWhile_cons, if_pos hdnl]
      simp only [ltOpenerOK]
      rw [if_pos hd]
    · split at h
      · rename_i hd1 hd2
        subst hd2
        match r2, h with
        | e :: r3, h =>
          rw [List.takeWhile_cons, if_pos (by decide)]
          have henl : (fun c => !(decide (c = '\n'))) e = true := by
            simp only [Bool.not_eq_true', decide_eq_false_iff_not]
            intro hc
            subst hc
            simp at h
          rw [List.takeWhile_cons, if_pos henl]
          simp only [ltOpenerOK]
          rw [if_neg (by decide), if_pos (by decide)]
          exact h
      · exact absurd h Bool.false_ne_true

theorem pySplitOn_first (sep : Char) (s : Chars) :
    ∃ ps, pySplitOn sep s = s.takeWhile (fun c => !(c = sep)) :: ps := by
  induction s with
  | nil => exact ⟨[], rfl⟩
  | cons c rest ih =>
    simp only [pySplitOn]
    by_cases hc : c = sep
    · rw [if_pos hc, List.takeWhile_cons]
      rw [if_neg (by simp [hc])]
      exact ⟨pySplitOn sep rest, rfl⟩
    · rw [if_neg hc, List.takeWhile_cons]
      rw [if_pos (by simp [hc])]
      obtain ⟨ps, hps⟩ := ih
      rw [hps]
      exact ⟨ps, rfl⟩

theorem pySplitOn_nl_ltFree {s : Chars} (h : ltFree s = true) :
    ∀ p ∈ pySplitOn '\n' s, ltFree p = true := by
  induction s with
  | nil =>
    intro p hp
    rw [List.mem_singleton.mp hp]
    rfl
  | cons c rest ih =>
    have hr := ltFree_cons_tail h
    intro p hp
    simp only [pySplitOn] at hp
    by_cases hc : c = '\n'
    · rw [if_pos hc] at hp
      rcases List.mem_cons.mp hp with hp | hp
      · rw [hp]
        rfl
      · exact ih hr p hp
    · rw [if_neg hc] at hp
      obtain ⟨ps, hps⟩ := pySplitOn_first '\n' rest
      rw [hps] at hp
      dsimp only at hp
      rcases List.mem_cons.mp hp with hp | hp
      · subst hp
        have htw : ltFree (rest.takeWhile (fun c => !(c = '\n'))) = true :=
          ih hr _ (by rw [hps]; exact List.mem_cons_self _ _)
        simp only [ltFree, Bool.and_eq_true]
        refine ⟨?_, htw⟩
        by_cases hlt : c = '<'
        · rw [if_pos hlt]
          subst hlt
          exact ltOpenerOK_takeWhile_nl (ltFree_lt_head h)
        · rw [if_neg hlt]
      · exact ih hr p (by rw [hps]; exact List.mem_cons_of_mem _ hp)

/-- The per-state well-formedness behind the marker invariant: the document
is `head ++ FOOTER_MARKER ++ t` with an `ltFree` head, the persistent ANSI
colors and the current section id hold no `<`. -/
def StOK (t : Chars) (st : LogState) : Prop :=
  (∃ head, st.file = head ++ FOOTER_MARKER ++ t ∧ ltFree head = true) ∧
  ansiOK st.ansi = true ∧ noLtOpt st.currentSectionId = true

theorem insert_bytes_ok {t : Chars} {st st' : LogState} {b : Chars}
    (hs : StOK t st) (hocc1 : occCount FOOTER_MARKER (FOOTER_MARKER ++ t) = 1)
    (hb : ltFree b = true) (h : insert_bytes st b = some st') : StOK t st' := by
  obtain ⟨⟨head, hf, hlh⟩, hansi, hsid⟩ := hs
  rw [insert_bytes_eq hf (hf ▸ occCount_marker_once hlh hocc1) b] at h
  have hst := (Option.some.inj h).symm
  subst hst
  exact ⟨⟨head ++ b, by simp [List.append_assoc], ltFree_append hlh hb⟩, hansi, hsid⟩

theorem end_chunk_ok {t : Chars} {st st' : LogState}
    (hs : StOK t st) (hocc1 : occCount FOOTER_MARKER (FOOTER_MARKER ++ t) = 1)
    (h : end_chunk st = some st') : StOK t st' := by
  obtain ⟨⟨head, hf, hlh⟩, hansi, hsid⟩ := hs
  have hcs := close_ansi_spans_ok hansi
  simp only [end_chunk] at h
  rcases hcse : close_ansi_spans st.ansi with ⟨ansi', closeSpan⟩
  rw [hcse] at h hcs
  dsimp only at h
  have hs2 : StOK t { st with lastChunkType := none, lastChunkBase := none, ansi := ansi' } :=
    ⟨⟨head, hf, hlh⟩, hcs.1, hsid⟩
  by_cases hne : closeSpan ≠ []
  · rw [if_pos hne] at h
    exact insert_bytes_ok hs2 hocc1 hcs.2 h
  · rw [if_neg hne] at h
    have hst := (Option.some.inj h).symm
    subst hst
    exact hs2

theorem ltFree_anchor_bytes {name dataSection ts : String} {atext : Chars}
    (hn : '<' ∉ name.data) (hd : '<' ∉ dataSection.data) (hts : '<' ∉ ts.data) :
    ltFree (("<h2 id=\"" ++ name ++ "\" data-section=\"" ++ dataSection ++
      "\" data-timestamp=\"" ++ ts ++ "\" title=\"" ++ ts ++ "\">").data ++
      escape_html atext ++ "</h2>\n".data) = true := by
  simp only [String.data_append]
  repeat' apply ltFree_append
  all_goals first
    | exact ltFree_of_no_lt hn
    | exact ltFree_of_no_lt hd
    | exact ltFree_of_no_lt hts
    | exact ltFree_escape_html atext
    | decide

theorem anchor_op_ok {t : Chars} {st st' : LogState} {atext : Chars}
    {aname : Option String} {ts uuid : String}
    (hs : StOK t st) (hocc1 : occCount FOOTER_MARKER (FOOTER_MARKER ++ t) = 1)
    (hname : ∀ n, aname = some n → noLtStr n = true)
    (hts : noLtStr ts = true) (hu : noLtStr uuid = true)
    (h : anchor_op st atext aname ts uuid = some st') : StOK t st' := by
  simp only [anchor_op] at h
  cases he : end_chunk st with
  | none =>
    rw [he] at h
    cases h
  | some st1 =>
    rw [he] at h
    dsimp only at h
    have hs1 := end_chunk_ok hs hocc1 he
    obtain ⟨hfile1, hansi1, hsid1⟩ := hs1
    have hnm : '<' ∉ (match aname with
        | some n => n
        | none => String.mk (slugify atext) ++ "-" ++ uuid).data := by
      cases aname with
      | some n => exact noLtStr_mem (hname n rfl)
      | none =>
        dsimp only
        rw [String.data_append, String.data_append]
        simp only [List.mem_append, not_or]
        exact ⟨⟨slugify_no_lt atext, by decide⟩, noLtStr_mem hu⟩
    cases hscid : st1.currentSectionId with
    | none =>
      rw [hscid] at h
      dsimp only at h
      exact insert_bytes_ok ⟨hfile1, hansi1, hsid1⟩ hocc1
        (ltFree_anchor_bytes hnm hnm (noLtStr_mem hts)) h
    | some sec =>
      rw [hscid] at h
      dsimp only at h
      rw [hscid] at hsid1
      by_cases hse : sec.isEmpty = true
      · rw [if_pos hse] at h
        exact insert_bytes_ok ⟨hfile1, hansi1, by rw [hscid]; exact hsid1⟩ hocc1
          (ltFree_anchor_bytes hnm hnm (noLtStr_mem hts)) h
      · rw [if_neg hse] at h
        exact insert_bytes_ok ⟨hfile1, hansi1, by rw [hscid]; exact hsid1⟩ hocc1
          (ltFree_anchor_bytes hnm (noLtStr_mem hsid1) (noLtStr_mem hts)) h

theorem start_op_ok {t : Chars} {st st' : LogState} {n : Chars}
    (hs : StOK t st) (hocc1 : occCount FOOTER_MARKER (FOOTER_MARKER ++ t) = 1)
    (hn : ltFree n = true) (h : start_op st n = some st') : StOK t st' := by
  simp only [start_op] at h
  cases he : end_chunk st with
  | none =>
    rw [he] at h
    cases h
  | some st1 =>
    rw [he] at h
    dsimp only at h
    have hs1 := end_chunk_ok hs hocc1 he
    cases hib : insert_bytes st1 (("<h1 id=\"" ++ String.mk (slugify n) ++ "\">").data ++
        n ++ "</h1>\n".data) with
    | none =>
      rw [hib] at h
      cases h
    | some st2 =>
      rw [hib] at h
      dsimp only at h
      have hst := (Option.some.inj h).symm
      subst hst
      have hbytes : ltFree (("<h1 id=\"" ++ String.mk (slugify n) ++ "\">").data ++
          n ++ "</h1>\n".data) = true := by
        simp only [String.data_append]
        repeat' apply ltFree_append
        all_goals first
          | exact ltFree_of_no_lt (slugify_no_lt n)
          | exact hn
          | decide
      obtain ⟨hf2, hansi2, _⟩ := insert_bytes_ok hs1 hocc1 hbytes hib
      exact ⟨hf2, hansi2, decide_eq_true (slugify_no_lt n)⟩

theorem noLtStr_slug_uuid (s : Chars) {u : String} (hu : noLtStr u = true) :
    noLtStr (String.mk (slugify s) ++ "-" ++ u) = true := by
  apply decide_eq_true
  rw [String.data_append, String.data_append]
  simp only [List.mem_append, not_or]
  exact ⟨⟨slugify_no_lt s, by decide⟩, noLtStr_mem hu⟩

theorem inject_html_ok {t : Chars} {st st' : LogState} {html : Chars}
    {atext : Option Chars} {aname : Option String} {ts uuid : String}
    (hs : StOK t st) (hocc1 : occCount FOOTER_MARKER (FOOTER_MARKER ++ t) = 1)
    (hh : ltFree html = true)
    (hname : ∀ n, aname = some n → noLtStr n = true)
    (hts : noLtStr ts = true) (hu : noLtStr uuid = true)
    (h : inject_html st html atext aname ts uuid = some st') : StOK t st' := by
  obtain ⟨⟨head, hf, hlh⟩, hansi, hsid⟩ := hs
  have hcs := close_ansi_spans_ok hansi
  simp only [inject_html] at h
  rcases hcse : close_ansi_spans st.ansi with ⟨ansi', closeSpan⟩
  rw [hcse] at h hcs
  dsimp only at h
  have hst2 : StOK t { st with lastChunkType := none, lastChunkBase := none, ansi := ansi' } :=
    ⟨⟨head, hf, hlh⟩, hcs.1, hsid⟩
  have hstep1 : ∀ {st3 : LogState},
      (if closeSpan ≠ [] then
        insert_bytes { st with lastChunkType := none, lastChunkBase := none, ansi := ansi' }
          closeSpan
      else some { st with lastChunkType := none, lastChunkBase := none, ansi := ansi' }) =
        some st3 → StOK t st3 := by
    intro st3 h3
    by_cases hne : closeSpan ≠ []
    · rw [if_pos hne] at h3
      exact insert_bytes_ok hst2 hocc1 hcs.2 h3
    · rw [if_neg hne] at h3
      have h4 := (Option.some.inj h3).symm
      subst h4
      exact hst2
  cases h1 : (if closeSpan ≠ [] then
      insert_bytes { st with lastChunkType := none, lastChunkBase := none, ansi := ansi' }
        closeSpan
    else some { st with lastChunkType := none, lastChunkBase := none, ansi := ansi' }) with
  | none =>
    rw [h1] at h
    cases h
  | some st3 =>
    rw [h1] at h
    dsimp only at h
    have hs3 := hstep1 h1
    have hwrap : ∀ {st4 st5 : LogState}, StOK t st4 →
        insert_bytes st4 ("<div class=\"html-injection\">".data ++ html ++
          "</div>\n".data) = some st5 → StOK t st5 := by
      intro st4 st5 hs4 h5
      exact insert_bytes_ok hs4 hocc1
        (ltFree_append (ltFree_append (by decide) hh) (by decide)) h5
    have hfinal : ∀ {st4 : LogState}, StOK t st4 →
        (match insert_bytes st4 ("<div class=\"html-injection\">".data ++ html ++
            "</div>\n".data) with
          | none => none
          | some st5 =>
            match find_marker st5.file st5.markerCache with
            | none => none
            | some (_, cache') => some { st5 with markerCache := cache' }) = some st' →
        StOK t st' := by
      intro st4 hs4 h4
      cases h5 : insert_bytes st4 ("<div class=\"html-injection\">".data ++ html ++
          "</div>\n".data) with
      | none =>
        rw [h5] at h4
        cases h4
      | some st5 =>
        rw [h5] at h4
        dsimp only at h4
        obtain ⟨⟨head5, hf5, hlh5⟩, hansi5, hsid5⟩ := hwrap hs4 h5
        rw [find_marker_eq st5.markerCache hf5
          (hf5 ▸ occCount_marker_once hlh5 hocc1)] at h4
        dsimp only at h4
        have h6 := (Option.some.inj h4).symm
        subst h6
        exact ⟨⟨head5, hf5, hlh5⟩, hansi5, hsid5⟩
    have hanch : ∀ (nm : String), noLtStr nm = true → ∀ {at2 : Chars} {st4 : LogState},
        anchor_op st3 at2 (some nm) ts uuid = some st4 → StOK t st4 := by
      intro nm hnm at2 st4 h2
      refine anchor_op_ok hs3 hocc1 ?_ hts hu h2
      intro n hn
      have hn2 := (Option.some.inj hn).symm
      subst hn2
      exact hnm
    cases aname with
    | some n0 =>
      dsimp only at h
      cases atext with
      | none =>
        dsimp only at h
        exact hfinal hs3 h
      | some at2 =>
        dsimp only at h
        cases h2 : anchor_op st3 at2 (some n0) ts uuid with
        | none =>
          rw [h2] at h
          cases h
        | some st4 =>
          rw [h2] at h
          dsimp only at h
          exact hfinal (hanch n0 (hname n0 rfl) h2) h
    | none =>
      dsimp only at h
      cases atext with
      | none =>
        dsimp only at h
        exact hfinal hs3 h
      | some at2 =>
        dsimp only at h
        cases h2 : anchor_op st3 at2 (some (String.mk (slugify at2) ++ "-" ++ uuid)) ts uuid with
        | none =>
          rw [h2] at h
          cases h
        | some st4 =>
          rw [h2] at h
          dsimp only at h
          exact hfinal (hanch _ (noLtStr_slug_uuid at2 hu) h2) h

theorem inject_image_ok {t : Chars} {st st' : LogState} {b64 atext : Chars}
    {aname : Option String} {ts uuid : String}
    (hs : StOK t st) (hocc1 : occCount FOOTER_MARKER (FOOTER_MARKER ++ t) = 1)
    (hb : '<' ∉ b64) (hat : ltFree atext = true)
    (hname : ∀ n, aname = some n → noLtStr n = true)
    (hts : noLtStr ts = true) (hu : noLtStr uuid = true)
    (h : inject_image st b64 atext aname ts uuid = some st') : StOK t st' := by
  simp only [inject_image] at h
  refine inject_html_ok hs hocc1 ?_ hname hts hu h
  repeat' apply ltFree_append
  all_goals first
    | exact ltFree_of_no_lt hb
    | exact hat
    | decide

theorem inject_table_ok {t : Chars} {st st' : LogState}
    {td : List (List (String × Chars))} {atext : Chars} {ts uuid : String}
    (hs : StOK t st) (hocc1 : occCount FOOTER_MARKER (FOOTER_MARKER ++ t) = 1)
    (hts : noLtStr ts = true) (hu : noLtStr uuid = true)
    (h : inject_table st td atext ts uuid = some st') : StOK t st' := by
  cases td with
  | nil =>
    simp only [inject_table] at h
    exact inject_html_ok hs hocc1 (by decide) (fun n hn => by cases hn) hts hu h
  | cons firstRow rows =>
    simp only [inject_table] at h
    refine inject_html_ok hs hocc1 ?_ (fun n hn => by cases hn) hts hu h
    have hcell : ∀ (ks : List String) (g : String → Chars),
        (∀ k, ltFree (g k) = true) → ltFree (ks.map g).flatten = true := by
      intro ks g hg
      refine flatten_ltFree ?_
      intro p hp
      obtain ⟨k, _, hk⟩ := List.mem_map.mp hp
      rw [← hk]
      exact hg k
    repeat' apply ltFree_append
    all_goals first
      | decide
      | skip
    · exact hcell _ _ (fun k => by
        repeat' apply ltFree_append
        all_goals first
          | exact ltFree_escape_html k.data
          | decide)
    · refine intercalate_nl_ltFree ?_
      intro p hp
      obtain ⟨r, _, hr⟩ := List.mem_map.mp hp
      rw [← hr]
      repeat' apply ltFree_append
      all_goals first
        | decide
        | skip
      exact hcell _ _ (fun k => by
        repeat' apply ltFree_append
        all_goals first
          | exact ltFree_escape_html (dictGet r k)
          | decide)

theorem inject_json_ok {t : Chars} {st st' : LogState} {txt atext : Chars}
    {ln : Bool} {ts uuid : String}
    (hs : StOK t st) (hocc1 : occCount FOOTER_MARKER (FOOTER_MARKER ++ t) = 1)
    (hts : noLtStr ts = true) (hu : noLtStr uuid = true)
    (h : inject_json st txt atext ln ts uuid = some st') : StOK t st' := by
  simp only [inject_json] at h
  refine inject_html_ok hs hocc1 ?_ (fun n hn => by cases hn) hts hu h
  split
  · repeat' apply ltFree_append
    all_goals first
      | apply ltFree_escape_html
      | decide
  · repeat' apply ltFree_append
    all_goals first
      | apply ltFree_escape_html
      | decide

theorem insert_before_closer_ok {t : Chars} {st st' : LogState} {inner : Chars}
    (hs : StOK t st) (hocc1 : occCount FOOTER_MARKER (FOOTER_MARKER ++ t) = 1)
    (hi : ltFree inner = true) (h : insert_before_closer st inner = some st') :
    StOK t st' := by
  obtain ⟨⟨head, hf, hlh⟩, hansi, hsid⟩ := hs
  have hocc : occCount FOOTER_MARKER st.file = 1 := by
    rw [hf]
    exact occCount_marker_once hlh hocc1
  cases hw : rfindIdx CHUNK_CLOSER
      ((st.file.drop (head.length - min head.length (512 * 1024))).take
        (min head.length (512 * 1024))) with
  | none =>
    rw [insert_before_closer_window_miss st head t inner hf hocc hw] at h
    have h2 := (Option.some.inj h).symm
    subst h2
    exact ⟨⟨head ++ inner, by simp [List.append_assoc], ltFree_append hlh hi⟩, hansi, hsid⟩
  | some idx =>
    have hfm := find_marker_eq st.markerCache hf hocc
    have hwm := rfindIdx_some_matches hw
    have hglobal : matchesAt CHUNK_CLOSER st.file
        (head.length - min head.length (512 * 1024) + idx) = true :=
      matchesAt_of_window hwm
    have hlen : idx + CHUNK_CLOSER.length ≤
        ((st.file.drop (head.length - min head.length (512 * 1024))).take
          (min head.length (512 * 1024))).length :=
      matchesAt_add_le_length closer_ne_nil hwm
    have hwinlen : ((st.file.drop (head.length - min head.length (512 * 1024))).take
        (min head.length (512 * 1024))).length ≤ min head.length (512 * 1024) := by
      rw [List.length_take]
      omega
    have hminle : min head.length (512 * 1024) ≤ head.length := Nat.min_le_left _ _
    have hcl : CHUNK_CLOSER.length = 13 := by decide
    have htake : st.file.take (head.length - min head.length (512 * 1024) + idx) =
        head.take (head.length - min head.length (512 * 1024) + idx) := by
      have h1 : st.file.take (head.length - min head.length (512 * 1024) + idx) =
          (st.file.take head.length).take
            (head.length - min head.length (512 * 1024) + idx) := by
        rw [List.take_take]
        have h2 : min (head.length - min head.length (512 * 1024) + idx) head.length =
            head.length - min head.length (512 * 1024) + idx := by omega
        rw [h2]
      rw [h1, hf, file_take_head]
    have hget : head.get? (head.length - min head.length (512 * 1024) + idx) =
        some '<' := by
      rcases closer_head_lt with ⟨p, hp⟩
      rw [hp] at hglobal
      have h3 := matchesAt_head hglobal
      rw [hf] at h3
      rw [← h3]
      rw [List.append_assoc]
      exact (List.get?_append (by omega)).symm
    have hltnew : ltFree ((head.take (head.length - min head.length (512 * 1024) + idx) ++
        inner) ++ CHUNK_CLOSER) = true :=
      ltFree_append (ltFree_append (ltFree_take_of_lt_at hlh hget) hi) closer_ltFree
    simp only [insert_before_closer, hfm, find_pos_of_last] at h
    rw [hw] at h
    have hnf : st.file.take (head.length - min head.length (512 * 1024) + idx) ++
        (inner ++ CHUNK_CLOSER ++ FOOTER_MARKER ++
          st.file.drop (head.length + FOOTER_MARKER.length)) =
        ((head.take (head.length - min head.length (512 * 1024) + idx) ++ inner) ++
          CHUNK_CLOSER) ++ FOOTER_MARKER ++ t := by
      rw [htake, hf, file_drop_tail]
      simp [List.append_assoc]
    simp only [hnf] at h
    have hoccnew : occCount FOOTER_MARKER
        (((head.take (head.length - min head.length (512 * 1024) + idx) ++ inner) ++
          CHUNK_CLOSER) ++ FOOTER_MARKER ++ t) = 1 :=
      occCount_marker_once hltnew hocc1
    have hfm2 := find_marker_eq (some head.length) rfl hoccnew
    simp only [hfm2] at h
    have h2 := (Option.some.inj h).symm
    subst h2
    exact ⟨⟨(head.take (head.length - min head.length (512 * 1024) + idx) ++ inner) ++
      CHUNK_CLOSER, rfl, hltnew⟩, hansi, hsid⟩

theorem apply_carriage_return_ok {t : Chars} {st st' : LogState} {text : Chars}
    {ct : String}
    (hs : StOK t st) (hocc1 : occCount FOOTER_MARKER (FOOTER_MARKER ++ t) = 1)
    (hct : noLtStr ct = true)
    (h : apply_carriage_return st text ct = some st') : StOK t st' := by
  obtain ⟨⟨head, hf, hlh⟩, hansi, hsid⟩ := hs
  have hocc : occCount FOOTER_MARKER st.file = 1 := by
    rw [hf]
    exact occCount_marker_once hlh hocc1
  have hfm := find_marker_eq st.markerCache hf hocc
  simp only [apply_carriage_return, find_last_chunk_start, hfm] at h
  have hfallback : ltFree (("<div class=\"" ++ ct ++ "\"><pre>").data ++
      escape_html (strip_ansi text) ++ "</pre></div>\n".data) = true := by
    simp only [String.data_append]
    repeat' apply ltFree_append
    all_goals first
      | exact ltFree_of_no_lt (noLtStr_mem hct)
      | apply ltFree_escape_html
      | decide
  cases hw : rfindIdx (("<div class=\"" ++ if ct = "stderr" then "stderr" else "stdout") ++
      "\"").data
      ((st.file.drop (head.length - min head.length (512 * 1024))).take
        (min head.length (512 * 1024))) with
  | none =>
    rw [hw] at h
    dsimp only at h
    rw [find_marker_eq (none : Option Nat) hf hocc] at h
    dsimp only at h
    have h2 := (Option.some.inj h).symm
    subst h2
    refine ⟨⟨head ++ (("<div class=\"" ++ ct ++ "\"><pre>").data ++
      escape_html (strip_ansi text) ++ "</pre></div>\n".data), ?_, ?_⟩, hansi, hsid⟩
    · show st.file.take head.length ++ _ = _
      rw [hf, file_take_head, file_drop_tail]
      simp [List.append_assoc]
    · exact ltFree_append hlh hfallback
  | some idx =>
    rw [hw] at h
    dsimp only at h
    rw [find_marker_eq (some head.length) hf hocc] at h
    dsimp only at h
    have hwm := rfindIdx_some_matches hw
    have hndl : (("<div class=\"" ++ if ct = "stderr" then "stderr" else "stdout") ++
        "\"").data = '<' :: (("div class=\"".data ++
          (if ct = "stderr" then "stderr" else "stdout").data) ++ "\"".data) := by
      rw [String.data_append, String.data_append]
      have h0 : "<div class=\"".data = '<' :: "div class=\"".data := by decide
      rw [h0]
      simp [List.cons_append]
    have hglobal : matchesAt (("<div class=\"" ++
        if ct = "stderr" then "stderr" else "stdout") ++ "\"").data st.file
        (head.length - min head.length (512 * 1024) + idx) = true :=
      matchesAt_of_window hwm
    have hlen : idx + (("<div class=\"" ++
        if ct = "stderr" then "stderr" else "stdout") ++ "\"").data.length ≤
        ((st.file.drop (head.length - min head.length (512 * 1024))).take
          (min head.length (512 * 1024))).length := by
      refine matchesAt_add_le_length ?_ hwm
      rw [hndl]
      intro hc
      cases hc
    have hwinlen : ((st.file.drop (head.length - min head.length (512 * 1024))).take
        (min head.length (512 * 1024))).length ≤ min head.length (512 * 1024) := by
      rw [List.length_take]
      omega
    have hminle : min head.length (512 * 1024) ≤ head.length := Nat.min_le_left _ _
    have hndlpos : 0 < (("<div class=\"" ++
        if ct = "stderr" then "stderr" else "stdout") ++ "\"").data.length := by
      rw [hndl]
      exact Nat.succ_pos _
    have hidx1 : idx + 1 ≤ min head.length (512 * 1024) :=
      le_trans (Nat.add_le_add_left hndlpos idx) (le_trans hlen hwinlen)
    have hlsle : head.length - min head.length (512 * 1024) + idx < head.length := by
      omega
    have hgetls : head.get? (head.length - min head.length (512 * 1024) + idx) =
        some '<' := by
      rw [hndl] at hglobal
      have h3 := matchesAt_head hglobal
      rw [hf] at h3
      rw [← h3]
      rw [List.append_assoc]
      exact (List.get?_append (by omega)).symm
    have hchunk : (st.file.drop (head.length - min head.length (512 * 1024) + idx)).take
        (head.length - (head.length - min head.length (512 * 1024) + idx)) =
        head.drop (head.length - min head.length (512 * 1024) + idx) := by
      rw [hf, List.append_assoc, List.drop_append_eq_append_drop]
      rw [Nat.sub_eq_zero_of_le (le_of_lt hlsle), List.drop_zero]
      rw [List.take_append_eq_append_take]
      rw [List.take_of_length_le (le_of_eq (List.length_drop _ _))]
      rw [List.length_drop, Nat.sub_self, List.take_zero, List.append_nil]
    rw [hchunk] at h
    have hctlt : ltFree (head.drop (head.length - min head.length (512 * 1024) + idx)) =
        true := ltFree_drop hlh _
    have hltakels : ltFree (head.take (head.length - min head.length (512 * 1024) + idx)) =
        true := ltFree_take_of_lt_at hlh hgetls
    have htakels : st.file.take (head.length - min head.length (512 * 1024) + idx) =
        head.take (head.length - min head.length (512 * 1024) + idx) := by
      have h1 : st.file.take (head.length - min head.length (512 * 1024) + idx) =
          (st.file.take head.length).take
            (head.length - min head.length (512 * 1024) + idx) := by
        rw [List.take_take]
        rw [Nat.min_eq_left (le_of_lt hlsle)]
      rw [h1, hf, file_take_head]
    cases hpe : preExtract (head.drop (head.length - min head.length (512 * 1024) + idx)) with
    | none =>
      rw [hpe] at h
      dsimp only at h
      rw [find_marker_eq (none : Option Nat) hf hocc] at h
      dsimp only at h
      have h2 := (Option.some.inj h).symm
      subst h2
      refine ⟨⟨head ++ ("<details><summary>ANSI cursor</summary><pre>".data ++
        escape_html text ++ "</pre></details>\n".data), ?_, ?_⟩, hansi, hsid⟩
      · show st.file.take head.length ++ _ = _
        rw [hf, file_take_head, file_drop_tail]
        simp [List.append_assoc]
      · refine ltFree_append hlh ?_
        repeat' apply ltFree_append
        all_goals first
          | apply ltFree_escape_html
          | decide
    | some pspe =>
      rcases pspe with ⟨ps, pe⟩
      rw [hpe] at h
      dsimp only at h
      simp only [preExtract] at hpe
      cases hfi : ffindIdx "<pre>".data
          (head.drop (head.length - min head.length (512 * 1024) + idx)) with
      | none =>
        rw [hfi] at hpe
        cases hpe
      | some i =>
        rw [hfi] at hpe
        dsimp only at hpe
        cases hfk : ffindIdx "</pre>".data
            ((head.drop (head.length - min head.length (512 * 1024) + idx)).drop (i + 5)) with
        | none =>
          rw [hfk] at hpe
          cases hpe
        | some k =>
          rw [hfk] at hpe
          dsimp only at hpe
          obtain ⟨hps, hpe2⟩ := Prod.mk.injEq .. |>.mp (Option.some.inj hpe)
          have hmi := ffindIdx_some_matches hfi
          have hmk := ffindIdx_some_matches hfk
          have hgeti : (head.drop (head.length - min head.length (512 * 1024) + idx)).get? i =
              some '<' := by
            have hpre5 : "<pre>".data = '<' :: "pre>".data := by decide
            rw [hpre5] at hmi
            exact matchesAt_head hmi
          have htk5 : (head.drop (head.length - min head.length (512 * 1024) + idx)).take
              (i + 5) =
              (head.drop (head.length - min head.length (512 * 1024) + idx)).take i ++
                "<pre>".data := by
            rw [List.take_add]
            have hpref := isPrefixOf_eq_true_iff.mp hmi
            have h5 := List.prefix_iff_eq_take.mp hpref
            have hl5 : ("<pre>".data).length = 5 := by decide
            rw [hl5] at h5
            rw [← h5]
          have hB1 : ltFree ((head.drop (head.length - min head.length (512 * 1024) +
              idx)).take ps) = true := by
            rw [← hps, htk5]
            exact ltFree_append (ltFree_take_of_lt_at hctlt hgeti) (by decide)
          have hB2 : ltFree ((head.drop (head.length - min head.length (512 * 1024) +
              idx)).drop pe) = true := ltFree_drop hctlt pe
          have hpc : ltFree (((head.drop (head.length - min head.length (512 * 1024) +
              idx)).drop ps).take (pe - ps)) = true := by
            rw [← hps, ← hpe2]
            have hk : i + 5 + k - (i + 5) = k := by omega
            rw [hk]
            have hgetk : ((head.drop (head.length - min head.length (512 * 1024) +
                idx)).drop (i + 5)).get? k = some '<' := by
              have hpre6 : "</pre>".data = '<' :: "/pre>".data := by decide
              rw [hpre6] at hmk
              exact matchesAt_head hmk
            exact ltFree_take_of_lt_at (ltFree_drop hctlt (i + 5)) hgetk
          have hNP : ltFree (List.intercalate ['\n']
              ((pySplitOn '\n' (((head.drop (head.length - min head.length (512 * 1024) +
                idx)).drop ps).take (pe - ps))).dropLast ++
                [escape_html (strip_ansi (afterLastSep '\r' text))])) = true := by
            refine intercalate_nl_ltFree ?_
            intro p hp
            rcases List.mem_append.mp hp with hp | hp
            · exact pySplitOn_nl_ltFree hpc p ((List.dropLast_sublist _).mem hp)
            · rw [List.mem_singleton.mp hp]
              exact ltFree_escape_html _
          have hltH : ltFree (head.take (head.length - min head.length (512 * 1024) + idx) ++
              (((head.drop (head.length - min head.length (512 * 1024) + idx)).take ps ++
                List.intercalate ['\n']
                  ((pySplitOn '\n' (((head.drop (head.length - min head.length (512 * 1024) +
                    idx)).drop ps).take (pe - ps))).dropLast ++
                    [escape_html (strip_ansi (afterLastSep '\r' text))])) ++
                (head.drop (head.length - min head.length (512 * 1024) + idx)).drop pe)) =
              true :=
            ltFree_append hltakels (ltFree_append (ltFree_append hB1 hNP) hB2)
          have hnf : st.file.take (head.length - min head.length (512 * 1024) + idx) ++
              ((head.drop (head.length - min head.length (512 * 1024) + idx)).take ps ++
                List.intercalate ['\n']
                  ((pySplitOn '\n' (((head.drop (head.length - min head.length (512 * 1024) +
                    idx)).drop ps).take (pe - ps))).dropLast ++
                    [escape_html (strip_ansi (afterLastSep '\r' text))]) ++
                (head.drop (head.length - min head.length (512 * 1024) + idx)).drop pe ++
                FOOTER_MARKER ++ st.file.drop (head.length + FOOTER_MARKER.length)) =
              (head.take (head.length - min head.length (512 * 1024) + idx) ++
                (((head.drop (head.length - min head.length (512 * 1024) + idx)).take ps ++
                  List.intercalate ['\n']
                    ((pySplitOn '\n' (((head.drop (head.length - min head.length (512 * 1024) +
                      idx)).drop ps).take (pe - ps))).dropLast ++
                      [escape_html (strip_ansi (afterLastSep '\r' text))])) ++
                  (head.drop (head.length - min head.length (512 * 1024) + idx)).drop pe)) ++
                FOOTER_MARKER ++ t := by
            rw [htakels, hf, file_drop_tail]
            simp [List.append_assoc]
          simp only [hnf] at h
          have hoccnew := occCount_marker_once hltH hocc1
          have hfm3 := find_marker_eq (some head.length) rfl hoccnew
          simp only [hfm3] at h
          have h2 := (Option.some.inj h).symm
          subst h2
          exact ⟨⟨_, rfl, hltH⟩, hansi, hsid⟩

theorem classify_chunk_noLt (text : Chars) (ct0 : String) (lt lb : Option String)
    (h : noLtStr ct0 = true) :
    noLtStr (classify_chunk text ct0 lt lb).1 = true := by
  simp only [classify_chunk]
  repeat' split
  all_goals first
    | rfl
    | exact h

theorem autoAnchorLines_ok {t : Chars} {oracle : Nat → String × String}
    (ho : ∀ k, noLtStr (oracle k).1 = true ∧ noLtStr (oracle k).2 = true)
    (hocc1 : occCount FOOTER_MARKER (FOOTER_MARKER ++ t) = 1) :
    ∀ (ls : List Chars) (st : LogState) (k : Nat) (res : LogState × Nat),
      StOK t st → autoAnchorLines oracle ls st k = some res → StOK t res.1 := by
  intro ls
  induction ls with
  | nil =>
    intro st k res hs h
    simp only [autoAnchorLines] at h
    have h2 := Option.some.inj h
    rw [← h2]
    exact hs
  | cons l ls2 ih =>
    intro st k res hs h
    simp only [autoAnchorLines] at h
    cases hlt : lineAnchorTitle l with
    | none =>
      rw [hlt] at h
      dsimp only at h
      exact ih st k res hs h
    | some title =>
      rw [hlt] at h
      dsimp only at h
      cases ha : anchor_op st title none (oracle k).1 (oracle k).2 with
      | none =>
        rw [ha] at h
        cases h
      | some st1 =>
        rw [ha] at h
        dsimp only at h
        have hs1 := anchor_op_ok hs hocc1 (fun n hn => by cases hn) (ho k).1 (ho k).2 ha
        exact ih st1 (k + 1) res hs1 h

theorem print_op_ok {t : Chars} {st st' : LogState} {data : Chars} {ct0 : String}
    {oracle : Nat → String × String}
    (hs : StOK t st) (hocc1 : occCount FOOTER_MARKER (FOOTER_MARKER ++ t) = 1)
    (hct : noLtStr ct0 = true)
    (ho : ∀ k, noLtStr (oracle k).1 = true ∧ noLtStr (oracle k).2 = true)
    (h : print_op st data ct0 oracle = some st') : StOK t st' := by
  simp only [print_op] at h
  cases hsa : (if data ≠ [] ∧ autoAnchorGuard data = true then
      autoAnchorLines oracle (pySplitlines data) st 0
    else some (st, 0)) with
  | none =>
    rw [hsa] at h
    cases h
  | some stAk =>
    rw [hsa] at h
    rcases stAk with ⟨stA, n⟩
    dsimp only at h
    have hsA : StOK t stA := by
      by_cases hg : data ≠ [] ∧ autoAnchorGuard data = true
      · rw [if_pos hg] at hsa
        exact autoAnchorLines_ok ho hocc1 _ st 0 (stA, n) hs hsa
      · rw [if_neg hg] at hsa
        have h2 := Option.some.inj hsa
        obtain ⟨h3, _⟩ := Prod.mk.injEq .. |>.mp h2
        rw [← h3]
        exact hs
    obtain ⟨⟨head, hfA, hlhA⟩, hansiA, hsidA⟩ := hsA
    have hce := compute_escaped_ok hansiA data
      (classify_chunk data ct0 stA.lastChunkType stA.lastChunkBase).1
    have hctk := classify_chunk_noLt data ct0 stA.lastChunkType stA.lastChunkBase hct
    have hsC : StOK t { stA with
        lastChunkType := (classify_chunk data ct0 stA.lastChunkType stA.lastChunkBase).2.1,
        lastChunkBase := (classify_chunk data ct0 stA.lastChunkType stA.lastChunkBase).2.2,
        ansi := (compute_escaped stA.ansi data
          (classify_chunk data ct0 stA.lastChunkType stA.lastChunkBase).1).1 } :=
      ⟨⟨head, hfA, hlhA⟩, hce.1, hsidA⟩
    split at h
    · exact apply_carriage_return_ok hsC hocc1 hctk h
    · split at h
      · exact insert_before_closer_ok hsC hocc1 hce.2 h
      · cases hib : insert_bytes { stA with
            lastChunkType := (classify_chunk data ct0 stA.lastChunkType stA.lastChunkBase).2.1,
            lastChunkBase := (classify_chunk data ct0 stA.lastChunkType stA.lastChunkBase).2.2,
            ansi := (compute_escaped stA.ansi data
              (classify_chunk data ct0 stA.lastChunkType stA.lastChunkBase).1).1 }
            (("<div class=\"" ++ (classify_chunk data ct0 stA.lastChunkType
                stA.lastChunkBase).1 ++ "\"><pre>").data ++
              (compute_escaped stA.ansi data
                (classify_chunk data ct0 stA.lastChunkType stA.lastChunkBase).1).2 ++
              "</pre></div>\n".data) with
        | none =>
          rw [hib] at h
          cases h
        | some stD =>
          rw [hib] at h
          dsimp only at h
          have hwrap : ltFree (("<div class=\"" ++ (classify_chunk data ct0
              stA.lastChunkType stA.lastChunkBase).1 ++ "\"><pre>").data ++
              (compute_escaped stA.ansi data
                (classify_chunk data ct0 stA.lastChunkType stA.lastChunkBase).1).2 ++
              "</pre></div>\n".data) = true := by
            simp only [String.data_append]
            repeat' apply ltFree_append
            all_goals first
              | exact ltFree_of_no_lt (noLtStr_mem hctk)
              | exact hce.2
              | decide
          obtain ⟨⟨headD, hfD, hlhD⟩, hansiD, hsidD⟩ := insert_bytes_ok hsC hocc1 hwrap hib
          split at h
          · have h2 := (Option.some.inj h).symm
            subst h2
            exact ⟨⟨headD, hfD, hlhD⟩, hansiD, hsidD⟩
          · have h2 := (Option.some.inj h).symm
            subst h2
            exact ⟨⟨headD, hfD, hlhD⟩, hansiD, hsidD⟩

/-- The HTML conventions on the external inputs of one public operation:
pre-rendered HTML fragments and section names respect the tag-opener
discipline, and plain string inputs (stream names, anchor names, timestamps,
uuid digits, base-64 data) contain no `<`. -/
def argsOK : LogOp → Prop
  | .print _ chunkType oracle =>
    noLtStr chunkType = true ∧
    ∀ k, noLtStr (oracle k).1 = true ∧ noLtStr (oracle k).2 = true
  | .start sectionName => ltFree sectionName = true
  | .anchor _ name ts uuidHex =>
    (∀ n, name = some n → noLtStr n = true) ∧ noLtStr ts = true ∧ noLtStr uuidHex = true
  | .injectHtml html _ name ts uuidHex =>
    ltFree html = true ∧ (∀ n, name = some n → noLtStr n = true) ∧
    noLtStr ts = true ∧ noLtStr uuidHex = true
  | .injectImage b64 anchorText name ts uuidHex =>
    '<' ∉ b64 ∧ ltFree anchorText = true ∧ (∀ n, name = some n → noLtStr n = true) ∧
    noLtStr ts = true ∧ noLtStr uuidHex = true
  | .injectTable _ _ ts uuidHex => noLtStr ts = true ∧ noLtStr uuidHex = true
  | .injectJson _ _ _ ts uuidHex => noLtStr ts = true ∧ noLtStr uuidHex = true
  | .endChunk => True

/-- C1 (amended): after every public operation that completes on a
well-formed document (`head ++ FOOTER_MARKER ++ t` with an `ltFree` head,
no-`<` ANSI colors and section id) whose external inputs respect the HTML
conventions (`argsOK`), the footer marker again occurs exactly once, still
immediately before the same footer tail `t`, and the well-formedness is
preserved.  Without `argsOK` the invariant is false — see the
counterexample: `start` splices the raw section name into the `<h1>`, so a
name containing the marker duplicates it. -/
theorem marker_invariant_amended (st st' : LogState) (head t : Chars) (op : LogOp)
    (hf : st.file = head ++ FOOTER_MARKER ++ t) (hlh : ltFree head = true)
    (htl : occCount FOOTER_MARKER (FOOTER_MARKER ++ t) = 1)
    (hansi : ansiOK st.ansi = true) (hsid : noLtOpt st.currentSectionId = true)
    (hok : argsOK op) (hrun : runOp st op = some st') :
    ∃ head', st'.file = head' ++ FOOTER_MARKER ++ t ∧ ltFree head' = true ∧
      occCount FOOTER_MARKER st'.file = 1 ∧
      ansiOK st'.ansi = true ∧ noLtOpt st'.currentSectionId = true := by
  have hs : StOK t st := ⟨⟨head, hf, hlh⟩, hansi, hsid⟩
  have hres : StOK t st' := by
    cases op with
    | print d ct oracle => exact print_op_ok hs htl hok.1 hok.2 hrun
    | start n => exact start_op_ok hs htl hok hrun
    | anchor a nm ts u => exact anchor_op_ok hs htl hok.1 hok.2.1 hok.2.2 hrun
    | injectHtml hh a nm ts u =>
      exact inject_html_ok hs htl hok.1 hok.2.1 hok.2.2.1 hok.2.2.2 hrun
    | injectImage b a nm ts u =>
      exact inject_image_ok hs htl hok.1 hok.2.1 hok.2.2.1 hok.2.2.2.1 hok.2.2.2.2 hrun
    | injectTable td a ts u => exact inject_table_ok hs htl hok.1 hok.2 hrun
    | injectJson tx a ln ts u => exact inject_json_ok hs htl hok.1 hok.2 hrun
    | endChunk => exact end_chunk_ok hs htl hrun
  obtain ⟨⟨head', hf', hlh'⟩, hansi', hsid'⟩ := hres
  refine ⟨head', hf', hlh', ?_, hansi', hsid'⟩
  rw [hf']
  exact occCount_marker_once hlh' htl

/-- The state a fresh session reaches after `print("hi")`. -/
def c1WitnessState : LogState :=
  { file := specTemplateHead ++ "<div class=\"stdout\"><pre>hi</pre></div>\n".data ++
      FOOTER_MARKER ++ specTemplateTail,
    markerCache := some 53, lastChunkType := some "stdout",
    lastChunkBase := some "stdout", ansi := ansiReset, currentSectionId := none }

theorem marker_invariant_amended_witness :
    ∃ head', c1WitnessState.file = head' ++ FOOTER_MARKER ++ specTemplateTail ∧
      ltFree head' = true ∧ occCount FOOTER_MARKER c1WitnessState.file = 1 ∧
      ansiOK c1WitnessState.ansi = true ∧
      noLtOpt c1WitnessState.currentSectionId = true :=
  marker_invariant_amended freshState c1WitnessState specTemplateHead specTemplateTail
    (.print "hi".data "stdout" noAnchorOracle) rfl (by decide) (by decide) (by decide)
    rfl ⟨by decide, fun k => ⟨rfl, rfl⟩⟩ (by decide)

/-- C1 (counterexample): the claim as stated — marker unique after EVERY
public operation — is false: `start` splices the section name into the
`<h1>` heading without HTML escaping (line 322), so
`start("x<!-- LOGTEEHTML_FOOTER -->")` on a fresh session leaves a file in
which the marker byte sequence occurs twice. -/
theorem marker_duplication_counterexample :
    (start_op freshState "x<!-- LOGTEEHTML_FOOTER -->".data).map
      (fun s => occCount FOOTER_MARKER s.file) = some 2 := by decide
